import Mathlib

/-!
Verification development for the `renta_fija` bond-analytics module
(`src/renta_fija/bonds.py` together with the valuation-date constant of
`src/renta_fija/data_loading.py`).

The embedding is shallow:

* calendar dates are triples (year, month, day); `Date.toDay` is the
  standard civil-calendar day number, so that `(d2 - d1).days` of Python's
  `datetime` becomes `d2.toDay - d1.toDay`, and the chronological order of
  `datetime` objects becomes the order of day numbers;
* `dateutil.relativedelta(months = n)` subtraction is `Date.subMonths`
  (month arithmetic with the day of month clamped to the target month's
  length, which is `relativedelta`'s behaviour);
* Python floats that the module uses as exact data (prices, coupons,
  discount factors, year fractions) are embedded as `ℚ`; quantities that
  are genuinely real (the flat-yield discount factors `(1+y)**t` and
  everything downstream of them) are embedded as `ℝ` with real powers;
* `NaN` used as a missing-value sentinel becomes `Option`;
* a Python computation that can raise or fail to terminate is a value of
  `Py α`: `ok a` (returns `a`), `exn e` (raises), `div` (never returns —
  produced when the coupon loop's step is zero months, see
  `buildCashflowsFuel`).
-/

namespace RentaFija

/-- A raised Python exception, by site. -/
inductive PyErr where
  /-- `ValueError` from `int(x)` where `x` is `NaN`. -/
  | nanToInt : PyErr
  /-- `ZeroDivisionError` from dividing by the integer 0. -/
  | zeroDiv : PyErr
  /-- `ValueError` from `np.interp` when the array of sample points is empty. -/
  | emptyInterp : PyErr
deriving DecidableEq, Repr

/-- Outcome of a Python computation: a value, a raised exception, or
divergence (the computation never returns). -/
inductive Py (α : Type) where
  | ok : α → Py α
  | exn : PyErr → Py α
  | div : Py α
deriving DecidableEq, Repr

/-- Sequencing of Python computations: exceptions and divergence propagate. -/
def Py.bind {α β : Type} : Py α → (α → Py β) → Py β
  | .ok a, f => f a
  | .exn e, _ => .exn e
  | .div, _ => .div

/-- A calendar date, as the fields of a `datetime.datetime` (time of day is
never used by the module). -/
structure Date where
  year : ℤ
  month : ℤ
  day : ℤ
deriving DecidableEq, Repr

/-- Day number of a civil date (days since 1970-01-01, the standard
days-from-civil algorithm), so that `(d2 - d1).days = d2.toDay - d1.toDay`.
Comparisons of `datetime` values are embedded as comparisons of day
numbers. -/
def Date.toDay (d : Date) : ℤ :=
  let y : ℤ := if d.month ≤ 2 then d.year - 1 else d.year
  let era : ℤ := y / 400
  let yoe : ℤ := y - era * 400
  let mp : ℤ := (d.month + 9) % 12
  let doy : ℤ := (153 * mp + 2) / 5 + d.day - 1
  let doe : ℤ := yoe * 365 + yoe / 4 - yoe / 100 + doy
  era * 146097 + doe - 719468

/-- Gregorian leap year. -/
def isLeap (y : ℤ) : Bool :=
  y % 4 = 0 ∧ (y % 100 ≠ 0 ∨ y % 400 = 0)

/-- Length of a month. -/
def monthLen (y m : ℤ) : ℤ :=
  if m = 2 then (if isLeap y then 29 else 28)
  else if m = 4 ∨ m = 6 ∨ m = 9 ∨ m = 11 then 30
  else 31

/-- `d - relativedelta(months = n)`: move `n` months back, clamping the day
of month to the length of the target month (dateutil's behaviour). -/
def Date.subMonths (d : Date) (months : ℤ) : Date :=
  let k : ℤ := 12 * d.year + (d.month - 1) - months
  let y : ℤ := k / 12
  let m : ℤ := k % 12 + 1
  ⟨y, m, min d.day (monthLen y m)⟩

/-- `DEFAULT_VALUATION_DATE` of `data_loading.py`: 2025-10-01. -/
def DEFAULT_VALUATION_DATE : Date := ⟨2025, 10, 1⟩

/-- `year_fraction(d1, d2)`: ACT/basis simple year fraction with the
module's (only ever used) default basis 365. -/
def year_fraction (d1 d2 : Date) : ℚ :=
  ((d2.toDay - d1.toDay : ℤ) : ℚ) / 365

/-- One pivot of the ESTR curve: columns `t`, `Discount`, `Zero Rate`
(the zero rate may be `NaN`, hence `Option`; it is stored in percent). -/
structure CurvePoint where
  t : ℚ
  discount : ℚ
  zeroRate : Option ℚ
deriving DecidableEq, Repr

/-- `np.interp x xp fp` over a non-empty list of pivots `(first :: rest)`
sorted by strictly increasing first component: constant extrapolation
outside the pivot range, linear interpolation within. -/
def interpPts (x : ℚ) : (ℚ × ℚ) → List (ℚ × ℚ) → ℚ
  | p, [] => p.2
  | p, q :: tl =>
    if x ≤ p.1 then p.2
    else if x ≤ q.1 then p.2 + (x - p.1) * (q.2 - p.2) / (q.1 - p.1)
    else interpPts x q tl

/-- `discount_from_curve(date, curva, val_date)`: interpolated discount
factor; exactly 1 for `t ≤ 0`; `np.interp` raises on an empty curve. -/
def discount_from_curve (date : Date) (curva : List CurvePoint) (val_date : Date) : Py ℚ :=
  let t := year_fraction val_date date
  if t ≤ 0 then .ok 1
  else
    match curva with
    | [] => .exn .emptyInterp
    | c :: tl => .ok (interpPts t (c.t, c.discount) (tl.map fun p => (p.t, p.discount)))

/-- One bond row of the universe table, with the columns the module reads.
`None` stands for a missing (`NaN`/`NaT`) entry.  The frequency column is
read through `int(...)`, and every frequency the data model admits is an
integer, so it is embedded as `Option ℤ`. -/
structure Row where
  maturity : Option Date
  firstCouponDate : Option Date
  couponFrequency : Option ℤ
  coupon : ℚ
  marketPrice : Option ℚ
deriving DecidableEq, Repr

/-- The backward coupon-date loop of `build_cashflows`:
`while dt > val_date and dt >= first_coupon: dates.append(dt); dt -= relativedelta(months=months)`.
`fuel` bounds the number of iterations; `none` means that the fuel ran out
with the loop condition still true (with enough fuel this happens only when
the loop really diverges).  The accumulator receives the dates newest
first, so it is exactly the ascending `sorted(dates)` the Python code
returns. -/
def gatherDates (months : ℤ) (val first : Date) : ℕ → Date → List Date → Option (List Date)
  | 0, dt, acc =>
    if val.toDay < dt.toDay ∧ first.toDay ≤ dt.toDay then none else some acc
  | fuel + 1, dt, acc =>
    if val.toDay < dt.toDay ∧ first.toDay ≤ dt.toDay then
      gatherDates months val first fuel (dt.subMonths months) (dt :: acc)
    else some acc

/-- `build_cashflows(row, val_date, notional)` with an explicit iteration
budget for its while-loop.  Faithful to the source's order of effects:
`int(row["Coupon Frequency"])` runs before the `pd.isna` guard, so a
missing frequency raises; `coupon_per_period` divides by `freq` before the
guard, so frequency 0 raises; only then missing dates or a non-positive
frequency yield the empty schedule.  The coupon interval is the integer
floor `12 // freq` months. -/
def buildCashflowsFuel (row : Row) (val : Date) (notional : ℚ) (fuel : ℕ) :
    Py (List Date × List ℚ) :=
  match row.couponFrequency with
  | none => .exn .nanToInt
  | some freq =>
    if freq = 0 then .exn .zeroDiv
    else
      let coupon_per_period : ℚ := notional * (row.coupon / 100) / (freq : ℚ)
      match row.maturity, row.firstCouponDate with
      | some maturity, some first_coupon =>
        if freq ≤ 0 then .ok ([], [])
        else
          let months : ℤ := 12 / freq
          match gatherDates months val first_coupon fuel maturity [] with
          | none => .div
          | some [] => .ok ([], [])
          | some dates =>
            .ok (dates,
              List.replicate (dates.length - 1) coupon_per_period
                ++ [coupon_per_period + notional])
      | _, _ => .ok ([], [])

/-- Iteration budget that suffices whenever the month step is at least 1:
one more than the number of days from the valuation date to maturity. -/
def defaultFuel (row : Row) (val : Date) : ℕ :=
  match row.maturity with
  | some m => (m.toDay - val.toDay).toNat + 1
  | none => 0

/-- `build_cashflows(row, val_date, notional)`. -/
def build_cashflows (row : Row) (val : Date) (notional : ℚ) : Py (List Date × List ℚ) :=
  buildCashflowsFuel row val notional (defaultFuel row val)

/-- Monadic map over `Py` (left to right, as a Python list comprehension). -/
def Py.mapList {α β : Type} (f : α → Py β) : List α → Py (List β)
  | [] => .ok []
  | a :: tl => (f a).bind fun b => (Py.mapList f tl).bind fun bs => .ok (b :: bs)

/-- `model_price_from_curve(row, curva, val_date, notional)`: present value
of the schedule against the curve; `NaN` (here `none`) for an empty
schedule. -/
def model_price_from_curve (row : Row) (curva : List CurvePoint) (val : Date)
    (notional : ℚ) : Py (Option ℚ) :=
  (build_cashflows row val notional).bind fun s =>
    match s with
    | (cf_dates, cf_amounts) =>
      if cf_dates = [] then .ok none
      else
        (Py.mapList (fun d => discount_from_curve d curva val) cf_dates).bind fun dfs =>
          .ok (some (List.zipWith (fun a df => a * df) cf_amounts dfs).sum)

/-- `rf_zero_rate_at_maturity(row, curva, val_date)`: zero rate (percent
converted to decimal) interpolated at the bond's maturity over the pivots
whose `Zero Rate` is present; `NaN` for `T ≤ 0`; `np.interp` raises when no
pivot is eligible. -/
def rf_zero_rate_at_maturity (row : Row) (curva : List CurvePoint) (val : Date) :
    Py (Option ℚ) :=
  let eligible : List (ℚ × ℚ) :=
    (curva.filter fun p => p.zeroRate.isSome).map fun p => (p.t, p.zeroRate.getD 0 / 100)
  match row.maturity with
  | none =>
    -- `T` is `NaN`, `NaN ≤ 0` is false, so the code still reaches `np.interp`,
    -- which raises on an empty sample array and yields `NaN` otherwise.
    if eligible = [] then .exn .emptyInterp else .ok none
  | some mat =>
    let T := year_fraction val mat
    if T ≤ 0 then .ok none
    else
      match eligible with
      | [] => .exn .emptyInterp
      | p :: tl => .ok (some (interpPts T p tl))

/-- `price_given_yield(y, cf_dates, cf_amounts, val_date)`: flat-yield
present value `Σ a_i / (1+y)^{t_i}` with discrete annual compounding,
`t_i = year_fraction(val_date, d_i)`. -/
noncomputable def price_given_yield (y : ℝ) (cf_dates : List Date) (cf_amounts : List ℚ)
    (val_date : Date) : ℝ :=
  (List.zipWith
    (fun d a => (a : ℝ) * (1 / (1 + y) ^ ((year_fraction val_date d : ℚ) : ℝ)))
    cf_dates cf_amounts).sum

/-- Modelled from the spec (§4.4, §9: a bracketing root-finder taking a
function, a bracket and a tolerance, converging for well-conditioned
inputs): `scipy.optimize.brentq(f, a, b)` is embedded as the ideal
bracketing solver, returning a root of `f` in `[a, b]` when one exists and
failing (the caught `ValueError`, hence `none`) otherwise.  For the
continuous, strictly monotone pricing functions the module feeds it, this
is exactly brentq's behaviour: a root exists iff the bracket shows a sign
change. -/
noncomputable def brentq (f : ℝ → ℝ) (a b : ℝ) : Option ℝ :=
  open scoped Classical in
  if h : ∃ x, x ∈ Set.Icc a b ∧ f x = 0 then some h.choose else none

/-- `yield_to_maturity(market_price, cf_dates, cf_amounts, val_date)`:
`NaN` (`none`) for an empty schedule, otherwise the brentq root of
`price_given_yield(y) - market_price` over `[-0.05, 0.5]`, with a failed
bracketing returning `NaN`.  A missing market price cannot produce a
bracketed sign change, so it also yields `none`. -/
noncomputable def yield_to_maturity (market_price : Option ℚ) (cf_dates : List Date)
    (cf_amounts : List ℚ) (val_date : Date) : Option ℝ :=
  if cf_dates = [] then none
  else
    match market_price with
    | none => none
    | some p =>
      brentq (fun y => price_given_yield y cf_dates cf_amounts val_date - (p : ℝ))
        (-0.05) 0.5

/-- `duration_and_convexity(market_price, cf_dates, cf_amounts, y, val_date)`:
Macaulay duration `Σ t_i·pv_i / P`, modified duration, and discrete
convexity `Σ t_i(t_i+1)·pv_i/(1+y)² / P`, with `pv_i = a_i/(1+y)^{t_i}`.
The division by `market_price` is unguarded, exactly as in the source. -/
noncomputable def duration_and_convexity (market_price : ℚ) (cf_dates : List Date)
    (cf_amounts : List ℚ) (y : ℝ) (val_date : Date) : ℝ × ℝ × ℝ :=
  let tpv : List (ℝ × ℝ) := List.zipWith
    (fun d a =>
      (((year_fraction val_date d : ℚ) : ℝ),
       (a : ℝ) * (1 / (1 + y) ^ ((year_fraction val_date d : ℚ) : ℝ))))
    cf_dates cf_amounts
  let D_mac : ℝ := (tpv.map fun p => p.1 * p.2).sum / (market_price : ℝ)
  let D_mod : ℝ := D_mac / (1 + y)
  let C : ℝ := (tpv.map fun p => p.1 * (p.1 + 1) * p.2 / (1 + y) ^ (2 : ℕ)).sum / (market_price : ℝ)
  (D_mac, D_mod, C)

/-- The per-bond risk record `compute_full_risk_measures` assembles; each
field is a number or the missing sentinel. -/
structure RiskRecord where
  YTM : Option ℝ
  rf_rate : Option ℝ
  spread : Option ℝ
  Dur_Mac : Option ℝ
  Dur_Mod : Option ℝ
  Convexity : Option ℝ

/-- The all-missing record returned for an empty schedule. -/
def RiskRecord.allMissing : RiskRecord := ⟨none, none, none, none, none, none⟩

/-- `compute_full_risk_measures(row, curva, val_date)`: build the schedule
(all fields missing when it is empty), solve the yield from the market
price, read the risk-free zero rate off the curve, and derive spread,
durations and convexity, each missing exactly when its own inputs are.
When `ytm` is present the market price is necessarily present, so the
placeholder `getD 0` in the duration call is never the value used. -/
noncomputable def compute_full_risk_measures (row : Row) (curva : List CurvePoint)
    (val : Date) : Py RiskRecord :=
  (build_cashflows row val 100).bind fun s =>
    match s with
    | (cf_dates, cf_amounts) =>
      if cf_dates = [] then .ok RiskRecord.allMissing
      else
        let ytm := yield_to_maturity row.marketPrice cf_dates cf_amounts val
        (rf_zero_rate_at_maturity row curva val).bind fun rf =>
          let spread : Option ℝ :=
            match ytm, rf with
            | some yv, some rv => some (yv - (rv : ℝ))
            | _, _ => none
          let dcc : Option (ℝ × ℝ × ℝ) :=
            match ytm with
            | none => none
            | some yv =>
              some (duration_and_convexity (row.marketPrice.getD 0) cf_dates cf_amounts yv val)
          .ok ⟨ytm, rf.map (fun r => (r : ℝ)), spread,
               dcc.map (fun p => p.1), dcc.map (fun p => p.2.1), dcc.map (fun p => p.2.2)⟩

/-! ### Concrete instances used by the claims -/

/-- Linear month index `12·year + (month − 1)`, the quantity
`relativedelta` month arithmetic shifts. -/
def monthIdx (d : Date) : ℤ := 12 * d.year + (d.month - 1)

/-- Day number of the zeroth day of the month with month index `k`
(only the year/month fields matter for monotonicity arguments). -/
def mB (k : ℤ) : ℤ := Date.toDay ⟨k / 12, k % 12 + 1, 0⟩

/-- Exact model price of the §8 scenario bond against the scenario curve
(the value `model_price_from_curve` returns there, `≈ 109.1587`). -/
def scenarioModelPrice : ℚ := 7968586587 / 73000000

/-- §8 scenario bond: valuation date 2025-10-01 (the default), maturity
five years out, annual 5% coupon, first coupon one year out, market price
equal to the model price. -/
def scenarioRow : Row :=
  ⟨some ⟨2030, 10, 1⟩, some ⟨2026, 10, 1⟩, some 1, 5, some scenarioModelPrice⟩

/-- The §8 scenario schedule dates `V+1y … V+5y`. -/
def scenarioDates : List Date :=
  [⟨2026, 10, 1⟩, ⟨2027, 10, 1⟩, ⟨2028, 10, 1⟩, ⟨2029, 10, 1⟩, ⟨2030, 10, 1⟩]

/-- The §8 scenario amounts `[5, 5, 5, 5, 105]`. -/
def scenarioAmounts : List ℚ := [5, 5, 5, 5, 105]

/-- The §8 scenario curve: pivots at `t = 1 … 5` with discount factors
`1/1.03^t` (to six decimals, as the spec lists them). -/
def scenarioCurve : List CurvePoint :=
  [⟨1, 970874 / 1000000, none⟩, ⟨2, 942596 / 1000000, none⟩, ⟨3, 915142 / 1000000, none⟩,
   ⟨4, 888487 / 1000000, none⟩, ⟨5, 862609 / 1000000, none⟩]

/-- The §8 scenario flat-yield price as a function of `z = (1+y)⁻¹` and
`u = (1+y)^(-1/365)` (the schedule's year fractions are
`1, 2, 3+1/365, 4+1/365, 5+1/365`), rational version. -/
def scenarioPriceQ (z u : ℚ) : ℚ :=
  5 * z + 5 * z ^ (2 : ℕ) + (5 * z ^ (3 : ℕ) + 5 * z ^ (4 : ℕ) + 105 * z ^ (5 : ℕ)) * u

/-- Real version of `scenarioPriceQ`. -/
noncomputable def scenarioPriceR (z u : ℝ) : ℝ :=
  5 * z + 5 * z ^ (2 : ℕ) + (5 * z ^ (3 : ℕ) + 5 * z ^ (4 : ℕ) + 105 * z ^ (5 : ℕ)) * u

/-- Numerator `Σ t_i·pv_i` of the scenario Macaulay duration as a function
of `z` and `u`, rational version. -/
def scenarioDurNumQ (z u : ℚ) : ℚ :=
  1 * (5 * z) + 2 * (5 * z ^ (2 : ℕ))
    + ((1096 / 365) * (5 * z ^ (3 : ℕ)) + (1461 / 365) * (5 * z ^ (4 : ℕ))
        + (1826 / 365) * (105 * z ^ (5 : ℕ))) * u

/-- Real version of `scenarioDurNumQ`. -/
noncomputable def scenarioDurNumR (z u : ℝ) : ℝ :=
  1 * (5 * z) + 2 * (5 * z ^ (2 : ℕ))
    + ((1096 / 365) * (5 * z ^ (3 : ℕ)) + (1461 / 365) * (5 * z ^ (4 : ℕ))
        + (1826 / 365) * (105 * z ^ (5 : ℕ))) * u

/-- Rational approximation of `(1+y)^(-1/365)` used for certified bounds:
an upper bound at `y = 0.03` and `y = 0.029999`, a lower bound at
`y = 0.02995` and (as a lower bound) at `y = 0.03`. -/
def uApprox : ℚ := 9999191 / 10000000

/-- Lower rational bound for `1.03^(-1/365)`. -/
def uLow : ℚ := 9999189 / 10000000

/-- A bond whose coupon frequency is 13: the backward step is
`12 // 13 = 0` months, so the schedule loop never advances. -/
def rowFreq13 : Row := ⟨some ⟨2030, 10, 1⟩, some ⟨2026, 10, 1⟩, some 13, 5, none⟩

/-- A conventional monthly-coupon bond (frequency 12). -/
def rowFreq12 : Row := ⟨some ⟨2030, 10, 1⟩, some ⟨2026, 10, 1⟩, some 12, 5, none⟩

/-- A bond whose `Coupon Frequency` field is missing (`NaN`). -/
def rowNoFreq : Row := ⟨some ⟨2030, 10, 1⟩, some ⟨2026, 10, 1⟩, none, 5, some 100⟩

/-- A bond whose coupon frequency is 0. -/
def rowFreq0 : Row := ⟨some ⟨2030, 10, 1⟩, some ⟨2026, 10, 1⟩, some 0, 5, some 100⟩

/-- A bond with coupon frequency 5, which does not divide 12. -/
def rowFreq5 : Row := ⟨some ⟨2026, 10, 1⟩, some ⟨2025, 12, 1⟩, some 5, 6, none⟩

/-- An ordinary priced bond (non-empty schedule, market price 100). -/
def rowPriced : Row := ⟨some ⟨2030, 10, 1⟩, some ⟨2026, 10, 1⟩, some 1, 5, some 100⟩

/-- An ordinary bond whose market price is missing. -/
def rowNoPrice : Row := ⟨some ⟨2030, 10, 1⟩, some ⟨2026, 10, 1⟩, some 1, 5, none⟩

/-- An ordinary bond quoted at a negative market price. -/
def rowNegPrice : Row := ⟨some ⟨2030, 10, 1⟩, some ⟨2026, 10, 1⟩, some 1, 5, some (-5)⟩

/-- A bond with no maturity date (and hence an empty schedule). -/
def rowNoMaturity : Row := ⟨none, some ⟨2026, 10, 1⟩, some 1, 5, some 100⟩

/-- A two-cashflow schedule at exactly one and two 365-day years from the
default valuation date (integer year fractions, handy for witnesses). -/
def twoCFDates : List Date := [⟨2026, 10, 1⟩, ⟨2027, 10, 1⟩]

/-- Amounts for `twoCFDates`: one coupon of 5 and a final 105. -/
def twoCFAmounts : List ℚ := [5, 105]

/-- The schedule `build_cashflows` produces for `rowFreq5`: six dates,
every two months, inside the single year (V, V+1y]. -/
def freq5Dates : List Date :=
  [⟨2025, 12, 1⟩, ⟨2026, 2, 1⟩, ⟨2026, 4, 1⟩, ⟨2026, 6, 1⟩, ⟨2026, 8, 1⟩, ⟨2026, 10, 1⟩]

/-- The amounts for `freq5Dates` (coupon 6, frequency 5, notional 100). -/
def freq5Amounts : List ℚ := [6 / 5, 6 / 5, 6 / 5, 6 / 5, 6 / 5, 6 / 5 + 100]

/-- One-cashflow schedule used for the duration counterexample. -/
def durCexDates : List Date := [⟨2026, 10, 1⟩]

/-- Amount for `durCexDates`. -/
def durCexAmounts : List ℚ := [100]

/-- The record `compute_full_risk_measures` produces for `rowNoPrice`
against `curveWithZero`: only the risk-free rate is present. -/
noncomputable def recNoPrice : RiskRecord :=
  ⟨none, some ((3 / 100 : ℚ) : ℝ), none, none, none, none⟩

/-- A curve none of whose pivots carries a zero rate. -/
def curveNoZero : List CurvePoint := [⟨1, 970874 / 1000000, none⟩]

/-- A curve with zero rates 2% at `t = 1` and 3% at `t = 5`. -/
def curveWithZero : List CurvePoint :=
  [⟨1, 970874 / 1000000, some 2⟩, ⟨5, 862609 / 1000000, some 3⟩]

/-! ### Calendar lemmas: the month step strictly decreases the day number -/

theorem toDay_day_split (y m dd : ℤ) :
    Date.toDay ⟨y, m, dd⟩ = Date.toDay ⟨y, m, 0⟩ + dd := by
  simp only [Date.toDay]
  ring

theorem toDay_eq_mB (d : Date) (h1 : 1 ≤ d.month) (h2 : d.month ≤ 12) :
    d.toDay = mB (monthIdx d) + d.day := by
  obtain ⟨y, m, dd⟩ := d
  simp only [monthIdx, mB] at *
  have hdiv : (12 * y + (m - 1)) / 12 = y := by omega
  have hmod : (12 * y + (m - 1)) % 12 + 1 = m := by omega
  rw [hdiv, hmod, ← toDay_day_split]

theorem mB_shift (q r : ℤ) (h0 : 0 ≤ r) (h1 : r < 12) :
    mB (12 * q + r) = Date.toDay ⟨q, r + 1, 0⟩ := by
  unfold mB
  rw [show (12 * q + r) / 12 = q by omega, show (12 * q + r) % 12 + 1 = r + 1 by omega]

theorem toDay_month_step (q r : ℤ) (h0 : 0 ≤ r) (h1 : r < 11) :
    Date.toDay ⟨q, r + 1, 0⟩ < Date.toDay ⟨q, r + 1 + 1, 0⟩ := by
  interval_cases r <;> simp only [Date.toDay] <;> norm_num <;> omega

theorem toDay_year_step (q : ℤ) : Date.toDay ⟨q, 12, 0⟩ < Date.toDay ⟨q + 1, 1, 0⟩ := by
  simp only [Date.toDay]
  norm_num

theorem mB_lt_succ (k : ℤ) : mB k < mB (k + 1) := by
  obtain ⟨q, r, hqr, h0, h1⟩ : ∃ q r : ℤ, k = 12 * q + r ∧ 0 ≤ r ∧ r < 12 :=
    ⟨k / 12, k % 12, by omega, by omega, by omega⟩
  rcases lt_or_ge r 11 with hr | hr
  · have e1 : mB k = Date.toDay ⟨q, r + 1, 0⟩ := by rw [hqr]; exact mB_shift q r h0 h1
    have e2 : mB (k + 1) = Date.toDay ⟨q, r + 1 + 1, 0⟩ := by
      have h : k + 1 = 12 * q + (r + 1) := by omega
      rw [h]
      exact mB_shift q (r + 1) (by omega) (by omega)
    rw [e1, e2]
    exact toDay_month_step q r h0 hr
  · have hr11 : r = 11 := by omega
    have e1 : mB k = Date.toDay ⟨q, 12, 0⟩ := by
      rw [hqr, hr11]
      have h := mB_shift q 11 (by omega) (by omega)
      norm_num at h
      exact h
    have e2 : mB (k + 1) = Date.toDay ⟨q + 1, 1, 0⟩ := by
      have h : k + 1 = 12 * (q + 1) := by omega
      rw [h]
      have h2 := mB_shift (q + 1) 0 (by omega) (by omega)
      norm_num at h2
      exact h2
    rw [e1, e2]
    exact toDay_year_step q

theorem mB_strictMono : StrictMono mB :=
  strictMono_int_of_lt_succ mB_lt_succ

theorem subMonths_month_range (d : Date) (months : ℤ) :
    1 ≤ (d.subMonths months).month ∧ (d.subMonths months).month ≤ 12 := by
  simp only [Date.subMonths]
  omega

theorem toDay_subMonths_lt (d : Date) (months : ℤ) (hm : 1 ≤ months)
    (h1 : 1 ≤ d.month) (h2 : d.month ≤ 12) :
    (d.subMonths months).toDay < d.toDay := by
  set k : ℤ := 12 * d.year + (d.month - 1) - months with hk
  have hout : d.subMonths months = ⟨k / 12, k % 12 + 1, min d.day (monthLen (k / 12) (k % 12 + 1))⟩ := rfl
  have hr1 : 1 ≤ (d.subMonths months).month := (subMonths_month_range d months).1
  have hr2 : (d.subMonths months).month ≤ 12 := (subMonths_month_range d months).2
  rw [toDay_eq_mB _ hr1 hr2, toDay_eq_mB d h1 h2]
  have hmi : monthIdx (d.subMonths months) = k := by
    rw [hout]
    simp only [monthIdx]
    omega
  have hlt : mB (monthIdx (d.subMonths months)) < mB (monthIdx d) := by
    apply mB_strictMono
    rw [hmi]
    simp only [monthIdx]
    omega
  have hday : (d.subMonths months).day ≤ d.day := by
    rw [hout]
    exact min_le_left _ _
  omega

theorem gatherDates_isSome (months : ℤ) (val first : Date) (hm : 1 ≤ months) :
    ∀ (fuel : ℕ) (dt : Date) (acc : List Date), 1 ≤ dt.month → dt.month ≤ 12 →
      (dt.toDay - val.toDay).toNat < fuel →
      (gatherDates months val first fuel dt acc).isSome = true := by
  intro fuel
  induction fuel with
  | zero => intro dt acc _ _ h; omega
  | succ n ih =>
    intro dt acc h1 h2 hfuel
    rw [gatherDates]
    split
    case isTrue hcond =>
      apply ih
      · exact (subMonths_month_range dt months).1
      · exact (subMonths_month_range dt months).2
      · have hdec := toDay_subMonths_lt dt months hm h1 h2
        have hv : val.toDay < dt.toDay := hcond.1
        omega
    case isFalse h => simp

/-! ### Certified rational bounds for the real powers `x^(-1/365)` -/

theorem rpow_inv365_le (x q : ℚ) (hx : 1 ≤ x) (hq : 0 < q)
    (h : 1 ≤ q ^ (365 : ℕ) * x) : ((x : ℝ)) ^ (-(1 / 365 : ℝ)) ≤ (q : ℝ) := by
  have hx1 : (1 : ℝ) ≤ (x : ℝ) := by exact_mod_cast hx
  have hx0 : (0 : ℝ) < (x : ℝ) := by linarith
  have ha : (0 : ℝ) < (x : ℝ) ^ (-(1 / 365 : ℝ)) := Real.rpow_pos_of_pos hx0 _
  have hq0 : (0 : ℝ) < (q : ℝ) := by exact_mod_cast hq
  rw [← pow_le_pow_iff_left₀ ha.le hq0.le (by norm_num : (365 : ℕ) ≠ 0)]
  have hL : ((x : ℝ) ^ (-(1 / 365 : ℝ))) ^ (365 : ℕ) = ((x : ℝ))⁻¹ := by
    rw [← Real.rpow_natCast ((x : ℝ) ^ (-(1 / 365 : ℝ))) 365, ← Real.rpow_mul hx0.le]
    norm_num
    exact Real.rpow_neg_one _
  rw [hL, inv_eq_one_div, div_le_iff₀ hx0]
  calc (1 : ℝ) ≤ ((q ^ (365 : ℕ) * x : ℚ) : ℝ) := by exact_mod_cast h
    _ = (q : ℝ) ^ (365 : ℕ) * (x : ℝ) := by push_cast; ring

theorem le_rpow_inv365 (x q : ℚ) (hx : 1 ≤ x) (hq : 0 < q)
    (h : q ^ (365 : ℕ) * x ≤ 1) : (q : ℝ) ≤ ((x : ℝ)) ^ (-(1 / 365 : ℝ)) := by
  have hx1 : (1 : ℝ) ≤ (x : ℝ) := by exact_mod_cast hx
  have hx0 : (0 : ℝ) < (x : ℝ) := by linarith
  have ha : (0 : ℝ) < (x : ℝ) ^ (-(1 / 365 : ℝ)) := Real.rpow_pos_of_pos hx0 _
  have hq0 : (0 : ℝ) < (q : ℝ) := by exact_mod_cast hq
  rw [← pow_le_pow_iff_left₀ hq0.le ha.le (by norm_num : (365 : ℕ) ≠ 0)]
  have hL : ((x : ℝ) ^ (-(1 / 365 : ℝ))) ^ (365 : ℕ) = ((x : ℝ))⁻¹ := by
    rw [← Real.rpow_natCast ((x : ℝ) ^ (-(1 / 365 : ℝ))) 365, ← Real.rpow_mul hx0.le]
    norm_num
    exact Real.rpow_neg_one _
  rw [hL, inv_eq_one_div, le_div_iff₀ hx0]
  calc ((q : ℝ)) ^ (365 : ℕ) * (x : ℝ) = ((q ^ (365 : ℕ) * x : ℚ) : ℝ) := by push_cast; ring
    _ ≤ 1 := by exact_mod_cast h

/-! ### General facts about the flat-yield pricing function -/

theorem year_fraction_pos {val d : Date} (h : val.toDay < d.toDay) :
    0 < year_fraction val d := by
  unfold year_fraction
  have hn : (0 : ℚ) < ((d.toDay - val.toDay : ℤ) : ℚ) := by exact_mod_cast sub_pos.mpr h
  exact div_pos hn (by norm_num)

theorem price_given_yield_nil (amounts : List ℚ) (val : Date) (y : ℝ) :
    price_given_yield y [] amounts val = 0 := by
  simp [price_given_yield]

theorem price_given_yield_cons (d : Date) (ds : List Date) (a : ℚ) (as : List ℚ)
    (val : Date) (y : ℝ) :
    price_given_yield y (d :: ds) (a :: as) val =
      (a : ℝ) * (1 / (1 + y) ^ ((year_fraction val d : ℚ) : ℝ))
        + price_given_yield y ds as val := by
  simp [price_given_yield]

theorem cf_term_lt {d : Date} {a : ℚ} {val : Date} (ha : 0 < a)
    (ht : 0 < year_fraction val d) {y1 y2 : ℝ} (h1 : -1 < y1) (h12 : y1 < y2) :
    (a : ℝ) * (1 / (1 + y2) ^ ((year_fraction val d : ℚ) : ℝ))
      < (a : ℝ) * (1 / (1 + y1) ^ ((year_fraction val d : ℚ) : ℝ)) := by
  have ht0 : (0 : ℝ) < ((year_fraction val d : ℚ) : ℝ) := by exact_mod_cast ht
  have hb1 : (0 : ℝ) < 1 + y1 := by linarith
  have hpow : (1 + y1) ^ ((year_fraction val d : ℚ) : ℝ)
      < (1 + y2) ^ ((year_fraction val d : ℚ) : ℝ) :=
    Real.rpow_lt_rpow hb1.le (by linarith) ht0
  have hp1 : (0 : ℝ) < (1 + y1) ^ ((year_fraction val d : ℚ) : ℝ) :=
    Real.rpow_pos_of_pos hb1 _
  exact mul_lt_mul_of_pos_left (one_div_lt_one_div_of_lt hp1 hpow)
    (by exact_mod_cast ha)

theorem cf_term_le {d : Date} {a : ℚ} {val : Date} (ha : 0 ≤ a)
    (ht : 0 ≤ year_fraction val d) {y1 y2 : ℝ} (h1 : -1 < y1) (h12 : y1 ≤ y2) :
    (a : ℝ) * (1 / (1 + y2) ^ ((year_fraction val d : ℚ) : ℝ))
      ≤ (a : ℝ) * (1 / (1 + y1) ^ ((year_fraction val d : ℚ) : ℝ)) := by
  have ht0 : (0 : ℝ) ≤ ((year_fraction val d : ℚ) : ℝ) := by exact_mod_cast ht
  have hb1 : (0 : ℝ) < 1 + y1 := by linarith
  have hpow : (1 + y1) ^ ((year_fraction val d : ℚ) : ℝ)
      ≤ (1 + y2) ^ ((year_fraction val d : ℚ) : ℝ) :=
    Real.rpow_le_rpow hb1.le (by linarith) ht0
  have hp1 : (0 : ℝ) < (1 + y1) ^ ((year_fraction val d : ℚ) : ℝ) :=
    Real.rpow_pos_of_pos hb1 _
  exact mul_le_mul_of_nonneg_left (one_div_le_one_div_of_le hp1 hpow)
    (by exact_mod_cast ha)

theorem price_antitone (cf_dates : List Date) :
    ∀ (cf_amounts : List ℚ) (val : Date), (∀ a ∈ cf_amounts, 0 ≤ a) →
      (∀ d ∈ cf_dates, 0 ≤ year_fraction val d) → ∀ {y1 y2 : ℝ}, -1 < y1 → y1 ≤ y2 →
      price_given_yield y2 cf_dates cf_amounts val
        ≤ price_given_yield y1 cf_dates cf_amounts val := by
  induction cf_dates with
  | nil => intro amounts val _ _ y1 y2 _ _; simp [price_given_yield_nil]
  | cons d ds ih =>
    intro amounts val hpos hts y1 y2 h1 h12
    match amounts with
    | [] => simp [price_given_yield]
    | a :: as =>
      rw [price_given_yield_cons, price_given_yield_cons]
      have hterm := cf_term_le (hpos a (by simp)) (hts d (by simp)) h1 h12
      have htail := ih as val (fun b hb => hpos b (by simp [hb]))
        (fun e he => hts e (by simp [he])) h1 h12
      linarith

theorem price_strictAnti (cf_dates : List Date) (cf_amounts : List ℚ) (val : Date)
    (hne : cf_dates ≠ []) (hlen : cf_dates.length = cf_amounts.length)
    (hpos : ∀ a ∈ cf_amounts, 0 < a)
    (hts : ∀ d ∈ cf_dates, 0 < year_fraction val d) {y1 y2 : ℝ}
    (h1 : -1 < y1) (h12 : y1 < y2) :
    price_given_yield y2 cf_dates cf_amounts val
      < price_given_yield y1 cf_dates cf_amounts val := by
  match cf_dates, cf_amounts with
  | [], _ => exact absurd rfl hne
  | d :: ds, [] => simp at hlen
  | d :: ds, a :: as =>
    rw [price_given_yield_cons, price_given_yield_cons]
    have hterm := cf_term_lt (hpos a (by simp)) (hts d (by simp)) h1 h12
    have htail := price_antitone ds as val (fun b hb => (hpos b (by simp [hb])).le)
      (fun e he => (hts e (by simp [he])).le) h1 h12.le
    linarith

theorem price_continuousOn (cf_dates : List Date) :
    ∀ (cf_amounts : List ℚ) (val : Date),
      ContinuousOn (fun y => price_given_yield y cf_dates cf_amounts val)
        (Set.Ioi (-1 : ℝ)) := by
  induction cf_dates with
  | nil =>
    intro amounts val
    simp only [price_given_yield_nil]
    exact continuousOn_const
  | cons d ds ih =>
    intro amounts val
    match amounts with
    | [] =>
      simp only [price_given_yield]
      simp only [List.zipWith]
      exact continuousOn_const
    | a :: as =>
      simp only [price_given_yield_cons]
      apply ContinuousOn.add
      · apply ContinuousOn.mul continuousOn_const
        apply ContinuousOn.div continuousOn_const
        · apply ContinuousOn.rpow_const
          · exact (continuous_const.add continuous_id).continuousOn
          · intro x hx
            left
            have hx1 : (-1 : ℝ) < x := hx
            have hb : (0 : ℝ) < 1 + x := by linarith
            exact hb.ne.symm
        · intro x hx
          have hx1 : (-1 : ℝ) < x := hx
          have hb : (0 : ℝ) < 1 + x := by linarith
          exact (Real.rpow_pos_of_pos hb _).ne.symm
      · exact ih as val

/-! ### The ideal bracketing solver -/

theorem brentq_of_exists {f : ℝ → ℝ} {a b : ℝ}
    (hex : ∃ x, x ∈ Set.Icc a b ∧ f x = 0) : ∃ y, brentq f a b = some y := by
  simp only [brentq, dif_pos hex]
  exact ⟨_, rfl⟩

theorem brentq_spec {f : ℝ → ℝ} {a b y : ℝ} (h : brentq f a b = some y) :
    y ∈ Set.Icc a b ∧ f y = 0 := by
  by_cases hex : ∃ x, x ∈ Set.Icc a b ∧ f x = 0
  · simp only [brentq, dif_pos hex, Option.some.injEq] at h
    rw [← h]
    exact hex.choose_spec
  · simp only [brentq, dif_neg hex] at h
    exact Option.noConfusion h

/-! ### Rewriting `1 / x^t` at the year fractions that occur in schedules -/

theorem one_div_rpow_natq (x : ℝ) (k : ℕ) :
    1 / x ^ ((((k : ℕ) : ℚ)) : ℝ) = (x⁻¹) ^ k := by
  rw [show ((((k : ℕ) : ℚ)) : ℝ) = ((k : ℕ) : ℝ) by push_cast; ring,
    Real.rpow_natCast, one_div, inv_pow]

theorem one_div_rpow_split (x : ℝ) (hx : 0 < x) (k : ℕ) (t : ℚ)
    (ht : ((t : ℚ) : ℝ) = ((k : ℕ) : ℝ) + 1 / 365) :
    1 / x ^ ((t : ℚ) : ℝ) = (x⁻¹) ^ k * x ^ (-(1 / 365 : ℝ)) := by
  rw [ht, Real.rpow_add hx, Real.rpow_natCast, Real.rpow_neg hx.le, one_div,
    mul_inv, inv_pow]

/-! ### Concrete year fractions of the schedules used in witnesses -/

theorem yf_2026 : year_fraction DEFAULT_VALUATION_DATE ⟨2026, 10, 1⟩ = ((1 : ℕ) : ℚ) := by
  unfold year_fraction DEFAULT_VALUATION_DATE
  rw [show Date.toDay ⟨2026, 10, 1⟩ - Date.toDay ⟨2025, 10, 1⟩ = 365 from by decide]
  norm_num

theorem yf_2027 : year_fraction DEFAULT_VALUATION_DATE ⟨2027, 10, 1⟩ = ((2 : ℕ) : ℚ) := by
  unfold year_fraction DEFAULT_VALUATION_DATE
  rw [show Date.toDay ⟨2027, 10, 1⟩ - Date.toDay ⟨2025, 10, 1⟩ = 730 from by decide]
  norm_num

theorem yf_2028 : year_fraction DEFAULT_VALUATION_DATE ⟨2028, 10, 1⟩ = 1096 / 365 := by
  unfold year_fraction DEFAULT_VALUATION_DATE
  rw [show Date.toDay ⟨2028, 10, 1⟩ - Date.toDay ⟨2025, 10, 1⟩ = 1096 from by decide]
  norm_num

theorem yf_2029 : year_fraction DEFAULT_VALUATION_DATE ⟨2029, 10, 1⟩ = 1461 / 365 := by
  unfold year_fraction DEFAULT_VALUATION_DATE
  rw [show Date.toDay ⟨2029, 10, 1⟩ - Date.toDay ⟨2025, 10, 1⟩ = 1461 from by decide]
  norm_num

theorem yf_2030 : year_fraction DEFAULT_VALUATION_DATE ⟨2030, 10, 1⟩ = 1826 / 365 := by
  unfold year_fraction DEFAULT_VALUATION_DATE
  rw [show Date.toDay ⟨2030, 10, 1⟩ - Date.toDay ⟨2025, 10, 1⟩ = 1826 from by decide]
  norm_num

/-! ### C1: round trip of pricing and yield solving -/

/-- C1.  For every schedule with strictly positive cashflow amounts and
every market price `P` for which `f(y) = price_given_yield(y) − P` changes
sign over the bracket `[-0.05, 0.50]`, `yield_to_maturity` returns a yield
that reprices to `P` within 1e-6 relative tolerance (in the embedding the
ideal solver reprices exactly, hence a fortiori within tolerance). -/
theorem C1_round_trip (cf_dates : List Date) (cf_amounts : List ℚ) (val_date : Date)
    (P : ℚ) (hne : cf_dates ≠ []) (hpos : ∀ a ∈ cf_amounts, 0 < a)
    (hsign : (price_given_yield (-0.05) cf_dates cf_amounts val_date - (P : ℝ)) *
      (price_given_yield 0.5 cf_dates cf_amounts val_date - (P : ℝ)) ≤ 0) :
    ∃ y, yield_to_maturity (some P) cf_dates cf_amounts val_date = some y ∧
      |price_given_yield y cf_dates cf_amounts val_date - (P : ℝ)|
        ≤ 1 / 1000000 * |(P : ℝ)| := by
  have hc : ContinuousOn
      (fun y => price_given_yield y cf_dates cf_amounts val_date - (P : ℝ))
      (Set.Icc (-0.05 : ℝ) 0.5) := by
    apply ContinuousOn.sub _ continuousOn_const
    apply (price_continuousOn cf_dates cf_amounts val_date).mono
    intro x hx
    have hx1 : (-0.05 : ℝ) ≤ x := hx.1
    have : (-1 : ℝ) < x := by norm_num at hx1 ⊢; linarith
    exact this
  have hab : (-0.05 : ℝ) ≤ 0.5 := by norm_num
  have hex : ∃ x, x ∈ Set.Icc (-0.05 : ℝ) 0.5 ∧
      price_given_yield x cf_dates cf_amounts val_date - (P : ℝ) = 0 := by
    rcases mul_nonpos_iff.mp hsign with ⟨hA, hB⟩ | ⟨hA, hB⟩
    · have h0 : (0 : ℝ) ∈ Set.Icc
          (price_given_yield 0.5 cf_dates cf_amounts val_date - (P : ℝ))
          (price_given_yield (-0.05) cf_dates cf_amounts val_date - (P : ℝ)) := ⟨hB, hA⟩
      obtain ⟨x, hx, hfx⟩ := intermediate_value_Icc' hab hc h0
      exact ⟨x, hx, hfx⟩
    · have h0 : (0 : ℝ) ∈ Set.Icc
          (price_given_yield (-0.05) cf_dates cf_amounts val_date - (P : ℝ))
          (price_given_yield 0.5 cf_dates cf_amounts val_date - (P : ℝ)) := ⟨hA, hB⟩
      obtain ⟨x, hx, hfx⟩ := intermediate_value_Icc hab hc h0
      exact ⟨x, hx, hfx⟩
  obtain ⟨y, hy⟩ := brentq_of_exists hex
  have hspec := brentq_spec hy
  refine ⟨y, ?_, ?_⟩
  · simp only [yield_to_maturity, if_neg hne]
    exact hy
  · rw [sub_eq_zero] at hspec
    rw [hspec.2]
    simp

/-- Witness for C1 at a concrete schedule and price. -/
theorem C1_round_trip_check :
    ∃ y, yield_to_maturity (some 100) twoCFDates twoCFAmounts DEFAULT_VALUATION_DATE
        = some y ∧
      |price_given_yield y twoCFDates twoCFAmounts DEFAULT_VALUATION_DATE - ((100 : ℚ) : ℝ)|
        ≤ 1 / 1000000 * |((100 : ℚ) : ℝ)| := by
  apply C1_round_trip twoCFDates twoCFAmounts DEFAULT_VALUATION_DATE 100
    (by decide) (by decide)
  have key : ∀ y : ℝ, price_given_yield y twoCFDates twoCFAmounts DEFAULT_VALUATION_DATE
      = 5 * ((1 + y)⁻¹) ^ (1 : ℕ) + 105 * ((1 + y)⁻¹) ^ (2 : ℕ) := by
    intro y
    simp only [price_given_yield, twoCFDates, twoCFAmounts, List.zipWith,
      List.sum_cons, List.sum_nil]
    rw [yf_2026, yf_2027, one_div_rpow_natq, one_div_rpow_natq]
    push_cast
    ring
  rw [key, key]
  norm_num

/-! ### C3: the flat-yield price is strictly decreasing in the yield -/

/-- C3.  For every non-empty schedule with strictly positive amounts whose
dates all lie strictly after the valuation date, `price_given_yield` is
strictly decreasing in `y` on the domain `1 + y > 0` (hence in particular
on the bracket `[-0.05, 0.50]`). -/
theorem C3_price_strictly_decreasing (cf_dates : List Date) (cf_amounts : List ℚ)
    (val_date : Date) (hne : cf_dates ≠ [])
    (hlen : cf_dates.length = cf_amounts.length)
    (hpos : ∀ a ∈ cf_amounts, 0 < a)
    (hafter : ∀ d ∈ cf_dates, val_date.toDay < d.toDay) {y1 y2 : ℝ}
    (h1 : 0 < 1 + y1) (h12 : y1 < y2) :
    price_given_yield y2 cf_dates cf_amounts val_date
      < price_given_yield y1 cf_dates cf_amounts val_date := by
  apply price_strictAnti cf_dates cf_amounts val_date hne hlen hpos
    (fun d hd => year_fraction_pos (hafter d hd)) (by linarith) h12

/-- Witness for C3 at a concrete schedule and pair of yields. -/
theorem C3_price_strictly_decreasing_check :
    price_given_yield (1 / 10) twoCFDates twoCFAmounts DEFAULT_VALUATION_DATE
      < price_given_yield 0 twoCFDates twoCFAmounts DEFAULT_VALUATION_DATE :=
  C3_price_strictly_decreasing twoCFDates twoCFAmounts DEFAULT_VALUATION_DATE
    (by decide) (by decide) (by decide) (by decide) (by norm_num) (by norm_num)

/-! ### C2: the §8 concrete scenario -/

theorem scenario_build : build_cashflows scenarioRow DEFAULT_VALUATION_DATE 100
    = Py.ok (scenarioDates, scenarioAmounts) := by
  simp only [build_cashflows, buildCashflowsFuel, scenarioRow, defaultFuel]
  norm_num
  rw [show ((⟨2030, 10, 1⟩ : Date).toDay - DEFAULT_VALUATION_DATE.toDay).toNat + 1 = 1827
    from by decide]
  rw [show gatherDates 12 DEFAULT_VALUATION_DATE ⟨2026, 10, 1⟩ 1827 ⟨2030, 10, 1⟩ []
      = some scenarioDates from by decide]
  simp only [scenarioDates]
  norm_num [scenarioAmounts, List.replicate]

theorem scenario_model_price :
    model_price_from_curve scenarioRow scenarioCurve DEFAULT_VALUATION_DATE 100
      = Py.ok (some scenarioModelPrice) := by
  simp only [model_price_from_curve, scenario_build, Py.bind]
  rw [if_neg (by decide : ¬(scenarioDates = []))]
  simp only [scenarioDates, Py.mapList, discount_from_curve, scenarioCurve, Py.bind]
  rw [yf_2026, yf_2027, yf_2028, yf_2029, yf_2030]
  norm_num [interpPts, scenarioAmounts, scenarioModelPrice]

theorem price_scenario_eq (y : ℝ) (hy : 0 < 1 + y) :
    price_given_yield y scenarioDates scenarioAmounts DEFAULT_VALUATION_DATE =
      scenarioPriceR (1 + y)⁻¹ ((1 + y) ^ (-(1 / 365 : ℝ))) := by
  simp only [price_given_yield, scenarioDates, scenarioAmounts, List.zipWith,
    List.sum_cons, List.sum_nil]
  rw [yf_2026, yf_2027, yf_2028, yf_2029, yf_2030]
  rw [one_div_rpow_natq, one_div_rpow_natq,
    one_div_rpow_split (1 + y) hy 3 (1096 / 365) (by push_cast; norm_num),
    one_div_rpow_split (1 + y) hy 4 (1461 / 365) (by push_cast; norm_num),
    one_div_rpow_split (1 + y) hy 5 (1826 / 365) (by push_cast; norm_num)]
  simp only [scenarioPriceR]
  push_cast
  ring

theorem scenarioPriceR_cast (z u : ℚ) :
    scenarioPriceR (z : ℝ) (u : ℝ) = ((scenarioPriceQ z u : ℚ) : ℝ) := by
  simp only [scenarioPriceR, scenarioPriceQ]
  push_cast
  ring

theorem scenarioPriceR_mono_u {z u C : ℝ} (hz : 0 ≤ z) (h : u ≤ C) :
    scenarioPriceR z u ≤ scenarioPriceR z C := by
  simp only [scenarioPriceR]
  have hco : (0 : ℝ) ≤ 5 * z ^ (3 : ℕ) + 5 * z ^ (4 : ℕ) + 105 * z ^ (5 : ℕ) := by positivity
  nlinarith [mul_le_mul_of_nonneg_left h hco]

theorem price_scenario_le (x C : ℚ) (hx : 1 ≤ x) (hC : 0 < C)
    (hup : 1 ≤ C ^ (365 : ℕ) * x) :
    price_given_yield ((x : ℝ) - 1) scenarioDates scenarioAmounts DEFAULT_VALUATION_DATE
      ≤ ((scenarioPriceQ x⁻¹ C : ℚ) : ℝ) := by
  have hx1 : (1 : ℝ) ≤ (x : ℝ) := by exact_mod_cast hx
  have hy : (0 : ℝ) < 1 + ((x : ℝ) - 1) := by linarith
  rw [price_scenario_eq _ hy, show (1 + ((x : ℝ) - 1)) = (x : ℝ) from by ring]
  have hu := rpow_inv365_le x C hx hC hup
  calc scenarioPriceR ((x : ℝ))⁻¹ ((x : ℝ) ^ (-(1 / 365 : ℝ)))
      ≤ scenarioPriceR ((x : ℝ))⁻¹ ((C : ℝ)) :=
        scenarioPriceR_mono_u (by positivity) hu
    _ = ((scenarioPriceQ x⁻¹ C : ℚ) : ℝ) := by rw [← Rat.cast_inv, scenarioPriceR_cast]

theorem price_scenario_ge (x C : ℚ) (hx : 1 ≤ x) (hC : 0 < C)
    (hlo : C ^ (365 : ℕ) * x ≤ 1) :
    ((scenarioPriceQ x⁻¹ C : ℚ) : ℝ)
      ≤ price_given_yield ((x : ℝ) - 1) scenarioDates scenarioAmounts
          DEFAULT_VALUATION_DATE := by
  have hx1 : (1 : ℝ) ≤ (x : ℝ) := by exact_mod_cast hx
  have hy : (0 : ℝ) < 1 + ((x : ℝ) - 1) := by linarith
  rw [price_scenario_eq _ hy, show (1 + ((x : ℝ) - 1)) = (x : ℝ) from by ring]
  have hu := le_rpow_inv365 x C hx hC hlo
  calc ((scenarioPriceQ x⁻¹ C : ℚ) : ℝ)
      = scenarioPriceR ((x : ℝ))⁻¹ ((C : ℝ)) := by rw [← Rat.cast_inv, scenarioPriceR_cast]
    _ ≤ scenarioPriceR ((x : ℝ))⁻¹ ((x : ℝ) ^ (-(1 / 365 : ℝ))) :=
        scenarioPriceR_mono_u (by positivity) hu

theorem price_scenario_at_low :
    (125 : ℝ) ≤ price_given_yield (-0.05) scenarioDates scenarioAmounts
      DEFAULT_VALUATION_DATE := by
  have hy : (0 : ℝ) < 1 + (-0.05 : ℝ) := by norm_num
  rw [price_scenario_eq _ hy]
  have hz : (1 : ℝ) ≤ (1 + (-0.05 : ℝ))⁻¹ := by norm_num
  have hu : (1 : ℝ) ≤ (1 + (-0.05 : ℝ)) ^ (-(1 / 365 : ℝ)) :=
    Real.one_le_rpow_of_pos_of_le_one_of_nonpos (by norm_num) (by norm_num) (by norm_num)
  simp only [scenarioPriceR]
  set z := (1 + (-0.05 : ℝ))⁻¹ with hzdef
  have h2 : (1 : ℝ) ≤ z ^ (2 : ℕ) := one_le_pow₀ hz
  have h3 : (1 : ℝ) ≤ z ^ (3 : ℕ) := one_le_pow₀ hz
  have h4 : (1 : ℝ) ≤ z ^ (4 : ℕ) := one_le_pow₀ hz
  have h5 : (1 : ℝ) ≤ z ^ (5 : ℕ) := one_le_pow₀ hz
  nlinarith [mul_le_mul_of_nonneg_left hu
    (by positivity : (0 : ℝ) ≤ 5 * z ^ (3 : ℕ) + 5 * z ^ (4 : ℕ) + 105 * z ^ (5 : ℕ))]

theorem price_scenario_at_high :
    price_given_yield 0.5 scenarioDates scenarioAmounts DEFAULT_VALUATION_DATE
      < ((scenarioModelPrice : ℚ) : ℝ) := by
  have h := price_scenario_le (3 / 2) 1 (by norm_num) (by norm_num) (by norm_num)
  rw [show (((3 / 2 : ℚ)) : ℝ) - 1 = (0.5 : ℝ) from by push_cast; norm_num] at h
  refine lt_of_le_of_lt h ?_
  have : (scenarioPriceQ (3 / 2)⁻¹ 1 : ℚ) < scenarioModelPrice := by
    norm_num [scenarioPriceQ, scenarioModelPrice]
  exact_mod_cast this

theorem scenario_strictAnti (y1 y2 : ℝ) (h1 : 0 < 1 + y1) (h12 : y1 < y2) :
    price_given_yield y2 scenarioDates scenarioAmounts DEFAULT_VALUATION_DATE
      < price_given_yield y1 scenarioDates scenarioAmounts DEFAULT_VALUATION_DATE := by
  have hall : ∀ d ∈ scenarioDates, DEFAULT_VALUATION_DATE.toDay < d.toDay := by decide
  apply price_strictAnti scenarioDates scenarioAmounts DEFAULT_VALUATION_DATE
    (by decide) (by decide) (by decide)
    (fun d hd => year_fraction_pos (hall d hd)) (by linarith) h12

theorem scenario_ytm_bounds :
    ∃ y, yield_to_maturity (some scenarioModelPrice) scenarioDates scenarioAmounts
        DEFAULT_VALUATION_DATE = some y ∧
      (2995 / 100000 : ℝ) < y ∧ y < (29999 / 1000000 : ℝ) := by
  have hc : ContinuousOn
      (fun y => price_given_yield y scenarioDates scenarioAmounts DEFAULT_VALUATION_DATE
        - ((scenarioModelPrice : ℚ) : ℝ)) (Set.Icc (-0.05 : ℝ) 0.5) := by
    apply ContinuousOn.sub _ continuousOn_const
    apply (price_continuousOn scenarioDates scenarioAmounts DEFAULT_VALUATION_DATE).mono
    intro x hx
    have hx1 : (-0.05 : ℝ) ≤ x := hx.1
    show (-1 : ℝ) < x
    norm_num at hx1 ⊢
    linarith
  have hP125 : ((scenarioModelPrice : ℚ) : ℝ) < 125 := by
    have : (scenarioModelPrice : ℚ) < 125 := by norm_num [scenarioModelPrice]
    exact_mod_cast this
  have hA : (0 : ℝ) ≤ price_given_yield (-0.05) scenarioDates scenarioAmounts
      DEFAULT_VALUATION_DATE - ((scenarioModelPrice : ℚ) : ℝ) := by
    have := price_scenario_at_low
    linarith
  have hB : price_given_yield 0.5 scenarioDates scenarioAmounts DEFAULT_VALUATION_DATE
      - ((scenarioModelPrice : ℚ) : ℝ) ≤ 0 := by
    have := price_scenario_at_high
    linarith
  have hex : ∃ x, x ∈ Set.Icc (-0.05 : ℝ) 0.5 ∧
      price_given_yield x scenarioDates scenarioAmounts DEFAULT_VALUATION_DATE
        - ((scenarioModelPrice : ℚ) : ℝ) = 0 := by
    have h0 : (0 : ℝ) ∈ Set.Icc
        (price_given_yield 0.5 scenarioDates scenarioAmounts DEFAULT_VALUATION_DATE
          - ((scenarioModelPrice : ℚ) : ℝ))
        (price_given_yield (-0.05) scenarioDates scenarioAmounts DEFAULT_VALUATION_DATE
          - ((scenarioModelPrice : ℚ) : ℝ)) := ⟨hB, hA⟩
    obtain ⟨x, hx, hfx⟩ := intermediate_value_Icc' (by norm_num : (-0.05 : ℝ) ≤ 0.5) hc h0
    exact ⟨x, hx, hfx⟩
  obtain ⟨y, hy⟩ := brentq_of_exists hex
  have hspec := brentq_spec hy
  have hy1 : (-0.05 : ℝ) ≤ y := hspec.1.1
  have hy2 : y ≤ 0.5 := hspec.1.2
  have hroot : price_given_yield y scenarioDates scenarioAmounts DEFAULT_VALUATION_DATE
      = ((scenarioModelPrice : ℚ) : ℝ) := by
    have := hspec.2
    linarith [sub_eq_zero.mp this]
  refine ⟨y, ?_, ?_, ?_⟩
  · simp only [yield_to_maturity, if_neg (by decide : ¬(scenarioDates = []))]
    exact hy
  · -- price(0.02995) > P forces y > 0.02995
    have hge := price_scenario_ge (102995 / 100000) uApprox (by norm_num)
      (by norm_num [uApprox]) (by norm_num [uApprox])
    have hgt : ((scenarioModelPrice : ℚ) : ℝ)
        < ((scenarioPriceQ (102995 / 100000)⁻¹ uApprox : ℚ) : ℝ) := by
      have : scenarioModelPrice < scenarioPriceQ (102995 / 100000)⁻¹ uApprox := by
        norm_num [scenarioPriceQ, scenarioModelPrice, uApprox]
      exact_mod_cast this
    have hxeq : (((102995 / 100000 : ℚ)) : ℝ) - 1 = (2995 / 100000 : ℝ) := by
      push_cast
      norm_num
    by_contra hcon
    push_neg at hcon
    rcases eq_or_lt_of_le hcon with heq | hlt
    · rw [heq, ← hxeq] at hroot
      rw [hroot] at hge
      linarith
    · have := scenario_strictAnti y (2995 / 100000 : ℝ)
        (by norm_num at hy1 ⊢; linarith) hlt
      rw [← hxeq] at this
      rw [hroot] at this
      linarith
  · -- price(0.029999) < P forces y < 0.029999
    have hle := price_scenario_le (1029999 / 1000000) uApprox (by norm_num)
      (by norm_num [uApprox]) (by norm_num [uApprox])
    have hlt2 : ((scenarioPriceQ (1029999 / 1000000)⁻¹ uApprox : ℚ) : ℝ)
        < ((scenarioModelPrice : ℚ) : ℝ) := by
      have : scenarioPriceQ (1029999 / 1000000)⁻¹ uApprox < scenarioModelPrice := by
        norm_num [scenarioPriceQ, scenarioModelPrice, uApprox]
      exact_mod_cast this
    have hxeq : (((1029999 / 1000000 : ℚ)) : ℝ) - 1 = (29999 / 1000000 : ℝ) := by
      push_cast
      norm_num
    by_contra hcon
    push_neg at hcon
    rcases eq_or_lt_of_le hcon with heq | hlt
    · rw [← heq, ← hxeq] at hroot
      rw [hroot] at hle
      linarith
    · have := scenario_strictAnti (29999 / 1000000 : ℝ) y
        (by norm_num) hlt
      rw [← hxeq] at this
      rw [hroot] at this
      linarith

theorem durMac_scenario_eq (mp : ℚ) (y : ℝ) (hy : 0 < 1 + y) :
    (duration_and_convexity mp scenarioDates scenarioAmounts y DEFAULT_VALUATION_DATE).1
      = scenarioDurNumR (1 + y)⁻¹ ((1 + y) ^ (-(1 / 365 : ℝ))) / (mp : ℝ) := by
  simp only [duration_and_convexity, scenarioDates, scenarioAmounts, List.zipWith,
    List.map, List.sum_cons, List.sum_nil]
  rw [yf_2026, yf_2027, yf_2028, yf_2029, yf_2030]
  rw [one_div_rpow_natq, one_div_rpow_natq,
    one_div_rpow_split (1 + y) hy 3 (1096 / 365) (by push_cast; norm_num),
    one_div_rpow_split (1 + y) hy 4 (1461 / 365) (by push_cast; norm_num),
    one_div_rpow_split (1 + y) hy 5 (1826 / 365) (by push_cast; norm_num)]
  simp only [scenarioDurNumR]
  push_cast
  ring

theorem scenarioDurNumR_cast (z u : ℚ) :
    scenarioDurNumR (z : ℝ) (u : ℝ) = ((scenarioDurNumQ z u : ℚ) : ℝ) := by
  simp only [scenarioDurNumR, scenarioDurNumQ]
  push_cast
  ring

theorem scenarioDurNumR_mono_u {z u C : ℝ} (hz : 0 ≤ z) (h : u ≤ C) :
    scenarioDurNumR z u ≤ scenarioDurNumR z C := by
  simp only [scenarioDurNumR]
  have hco : (0 : ℝ) ≤ (1096 / 365) * (5 * z ^ (3 : ℕ)) + (1461 / 365) * (5 * z ^ (4 : ℕ))
      + (1826 / 365) * (105 * z ^ (5 : ℕ)) := by positivity
  nlinarith [mul_le_mul_of_nonneg_left h hco]

theorem scenario_duration_bounds :
    4 + 56 / 100 < (duration_and_convexity scenarioModelPrice scenarioDates
        scenarioAmounts ((3 : ℝ) / 100) DEFAULT_VALUATION_DATE).1
    ∧ |(duration_and_convexity scenarioModelPrice scenarioDates scenarioAmounts
        ((3 : ℝ) / 100) DEFAULT_VALUATION_DATE).1 - 457 / 100| < 5 / 1000 := by
  have hy : (0 : ℝ) < 1 + (3 : ℝ) / 100 := by norm_num
  have heq := durMac_scenario_eq scenarioModelPrice ((3 : ℝ) / 100) hy
  have hxeq : (1 + (3 : ℝ) / 100) = ((103 / 100 : ℚ) : ℝ) := by push_cast; norm_num
  rw [hxeq] at heq
  have hu1 : ((103 / 100 : ℚ) : ℝ) ^ (-(1 / 365 : ℝ)) ≤ ((uApprox : ℚ) : ℝ) :=
    rpow_inv365_le _ _ (by norm_num) (by norm_num [uApprox]) (by norm_num [uApprox])
  have hu2 : ((uLow : ℚ) : ℝ) ≤ ((103 / 100 : ℚ) : ℝ) ^ (-(1 / 365 : ℝ)) :=
    le_rpow_inv365 _ _ (by norm_num) (by norm_num [uLow]) (by norm_num [uLow])
  have hz : (0 : ℝ) ≤ (((103 / 100 : ℚ)) : ℝ)⁻¹ := by positivity
  have hN1 : scenarioDurNumR (((103 / 100 : ℚ)) : ℝ)⁻¹
      (((103 / 100 : ℚ) : ℝ) ^ (-(1 / 365 : ℝ)))
      ≤ ((scenarioDurNumQ (103 / 100)⁻¹ uApprox : ℚ) : ℝ) := by
    calc scenarioDurNumR (((103 / 100 : ℚ)) : ℝ)⁻¹
          (((103 / 100 : ℚ) : ℝ) ^ (-(1 / 365 : ℝ)))
        ≤ scenarioDurNumR (((103 / 100 : ℚ)) : ℝ)⁻¹ ((uApprox : ℚ) : ℝ) :=
          scenarioDurNumR_mono_u hz hu1
      _ = ((scenarioDurNumQ (103 / 100)⁻¹ uApprox : ℚ) : ℝ) := by
          rw [← Rat.cast_inv, scenarioDurNumR_cast]
  have hN2 : ((scenarioDurNumQ (103 / 100)⁻¹ uLow : ℚ) : ℝ)
      ≤ scenarioDurNumR (((103 / 100 : ℚ)) : ℝ)⁻¹
        (((103 / 100 : ℚ) : ℝ) ^ (-(1 / 365 : ℝ))) := by
    calc ((scenarioDurNumQ (103 / 100)⁻¹ uLow : ℚ) : ℝ)
        = scenarioDurNumR (((103 / 100 : ℚ)) : ℝ)⁻¹ ((uLow : ℚ) : ℝ) := by
          rw [← Rat.cast_inv, scenarioDurNumR_cast]
      _ ≤ scenarioDurNumR (((103 / 100 : ℚ)) : ℝ)⁻¹
            (((103 / 100 : ℚ) : ℝ) ^ (-(1 / 365 : ℝ))) :=
          scenarioDurNumR_mono_u hz hu2
  have hp0 : (0 : ℝ) < ((scenarioModelPrice : ℚ) : ℝ) := by
    have : (0 : ℚ) < scenarioModelPrice := by norm_num [scenarioModelPrice]
    exact_mod_cast this
  have hupq : (scenarioDurNumQ (103 / 100)⁻¹ uApprox : ℚ)
      < (457 / 100 + 5 / 1000) * scenarioModelPrice := by
    norm_num [scenarioDurNumQ, scenarioModelPrice, uApprox]
  have hloq : (4 + 56 / 100 : ℚ) * scenarioModelPrice
      < scenarioDurNumQ (103 / 100)⁻¹ uLow := by
    norm_num [scenarioDurNumQ, scenarioModelPrice, uLow]
  have hloq2 : (457 / 100 - 5 / 1000 : ℚ) * scenarioModelPrice
      < scenarioDurNumQ (103 / 100)⁻¹ uLow := by
    norm_num [scenarioDurNumQ, scenarioModelPrice, uLow]
  have hupR : ((scenarioDurNumQ (103 / 100)⁻¹ uApprox : ℚ) : ℝ)
      < ((((457 / 100 + 5 / 1000) * scenarioModelPrice : ℚ)) : ℝ) := by
    exact_mod_cast hupq
  have hloR : ((((4 + 56 / 100 : ℚ) * scenarioModelPrice : ℚ)) : ℝ)
      < ((scenarioDurNumQ (103 / 100)⁻¹ uLow : ℚ) : ℝ) := by
    exact_mod_cast hloq
  have hloR2 : ((((457 / 100 - 5 / 1000 : ℚ) * scenarioModelPrice : ℚ)) : ℝ)
      < ((scenarioDurNumQ (103 / 100)⁻¹ uLow : ℚ) : ℝ) := by
    exact_mod_cast hloq2
  push_cast at hupR hloR hloR2
  have hDle : (duration_and_convexity scenarioModelPrice scenarioDates scenarioAmounts
      ((3 : ℝ) / 100) DEFAULT_VALUATION_DATE).1
      < 457 / 100 + 5 / 1000 := by
    rw [heq, div_lt_iff₀ hp0]
    linarith [hN1, hupR]
  have hDge : (4 + 56 / 100 : ℝ) < (duration_and_convexity scenarioModelPrice
      scenarioDates scenarioAmounts ((3 : ℝ) / 100) DEFAULT_VALUATION_DATE).1 := by
    rw [heq, lt_div_iff₀ hp0]
    linarith [hloR, hN2]
  have hDge2 : (457 / 100 - 5 / 1000 : ℝ) < (duration_and_convexity scenarioModelPrice
      scenarioDates scenarioAmounts ((3 : ℝ) / 100) DEFAULT_VALUATION_DATE).1 := by
    rw [heq, lt_div_iff₀ hp0]
    linarith [hloR2, hN2]
  constructor
  · linarith
  · rw [abs_sub_lt_iff]
    constructor <;> linarith

/-- C2 (amended).  In the §8 scenario (bond `scenarioRow` against
`scenarioCurve` at the default valuation date 2025-10-01) the schedule is
`V+1y … V+5y` with amounts `[5,5,5,5,105]` and the model price is
`≈ 109.16`; but because 2028 is a leap year the last year fraction is
`1826/365 > 5`, beyond the last curve pivot, so when the market price
equals the model price the solved yield is only within `5·10⁻⁵` of 3%
(not within `10⁻⁶`), and the Macaulay duration at `y = 3%` is `≈ 4.57`
(not `≈ 4.52`). -/
theorem C2_scenario_amended :
    build_cashflows scenarioRow DEFAULT_VALUATION_DATE 100
        = Py.ok (scenarioDates, scenarioAmounts)
    ∧ model_price_from_curve scenarioRow scenarioCurve DEFAULT_VALUATION_DATE 100
        = Py.ok (some scenarioModelPrice)
    ∧ |scenarioModelPrice - 10916 / 100| < 5 / 1000
    ∧ (∃ y, yield_to_maturity (some scenarioModelPrice) scenarioDates scenarioAmounts
        DEFAULT_VALUATION_DATE = some y ∧ |y - 3 / 100| < 5 / 100000)
    ∧ 4 + 56 / 100 < (duration_and_convexity scenarioModelPrice scenarioDates
        scenarioAmounts ((3 : ℝ) / 100) DEFAULT_VALUATION_DATE).1
    ∧ |(duration_and_convexity scenarioModelPrice scenarioDates scenarioAmounts
        ((3 : ℝ) / 100) DEFAULT_VALUATION_DATE).1 - 457 / 100| < 5 / 1000 := by
  refine ⟨scenario_build, scenario_model_price, ?_, ?_, scenario_duration_bounds.1,
    scenario_duration_bounds.2⟩
  · norm_num [scenarioModelPrice, abs]
  · obtain ⟨y, hy, h1, h2⟩ := scenario_ytm_bounds
    refine ⟨y, hy, ?_⟩
    rw [abs_sub_lt_iff]
    constructor <;> [linarith; linarith]

/-- C2 counterexample: in the §8 scenario with the market price equal to
the model price, the solved yield is NOT within `10⁻⁶` of 3% (it lies
strictly below `0.03 - 10⁻⁶`, because the final cashflow's discount factor
is clamped at the last curve pivot). -/
theorem C2_scenario_yield_not_3pct :
    ¬ ∃ y, yield_to_maturity (some scenarioModelPrice) scenarioDates scenarioAmounts
        DEFAULT_VALUATION_DATE = some y ∧ |y - 3 / 100| ≤ 1 / 1000000 := by
  rintro ⟨y, hy, habs⟩
  obtain ⟨y0, hy0, h1, h2⟩ := scenario_ytm_bounds
  have hyy : y = y0 := by
    have := hy.symm.trans hy0
    exact Option.some_inj.mp this
  subst hyy
  have hle : 3 / 100 - y ≤ |y - 3 / 100| := by
    rw [abs_sub_comm]
    exact le_abs_self _
  linarith

/-! ### C9: discount factor is exactly 1 on or before the valuation date -/

/-- C9.  For every curve and every query date with year fraction `≤ 0`
(on or before the valuation date), `discount_from_curve` returns exactly 1. -/
theorem C9_discount_boundary (date : Date) (curva : List CurvePoint) (val_date : Date)
    (h : year_fraction val_date date ≤ 0) :
    discount_from_curve date curva val_date = Py.ok 1 := by
  simp only [discount_from_curve, if_pos h]

/-- Witness for C9 at the valuation date itself. -/
theorem C9_discount_boundary_check :
    discount_from_curve DEFAULT_VALUATION_DATE curveWithZero DEFAULT_VALUATION_DATE
      = Py.ok 1 :=
  C9_discount_boundary _ _ _ (by simp [year_fraction])

/-! ### C5: a missing (or zero) coupon frequency raises instead of
returning the empty schedule -/

/-- C5 (code bug).  With `Coupon Frequency` missing, `build_cashflows`
raises `ValueError` from `int(NaN)` at line 53, before the `pd.isna` guard
of line 57 can return the empty schedule; with frequency 0 it raises
`ZeroDivisionError` at line 55.  (Missing maturity or first-coupon date,
and negative frequencies, do return the empty schedule.) -/
theorem C5_missing_frequency_raises :
    build_cashflows rowNoFreq DEFAULT_VALUATION_DATE 100 = Py.exn PyErr.nanToInt
    ∧ build_cashflows rowFreq0 DEFAULT_VALUATION_DATE 100 = Py.exn PyErr.zeroDiv := by
  constructor <;> rfl

/-! ### C10: frequencies that do not divide 12 silently get a floored
month step and more coupons per year than stated -/

/-- C10.  The coupon interval is the integer floor `12 // freq` months:
for frequency 5 the step is 2 months, and the resulting schedule of
`rowFreq5` (maturity one year after valuation) holds 6 coupon dates in a
single year, more than the stated 5; in general `f · (12 // f) < 12` for
every `1 ≤ f ≤ 12` not dividing 12. -/
theorem C10_floor_division_schedule :
    (12 / (5 : ℤ) = 2)
    ∧ build_cashflows rowFreq5 DEFAULT_VALUATION_DATE 100
        = Py.ok (freq5Dates, freq5Amounts)
    ∧ freq5Dates.length = 6
    ∧ (∀ f ∈ Finset.Icc (1 : ℤ) 12, ¬ (f ∣ 12) → f * (12 / f) < 12) := by
  refine ⟨by decide, ?_, by decide, by decide⟩
  simp only [build_cashflows, buildCashflowsFuel, rowFreq5, defaultFuel]
  norm_num
  rw [show ((⟨2026, 10, 1⟩ : Date).toDay - DEFAULT_VALUATION_DATE.toDay).toNat + 1 = 366
    from by decide]
  rw [show gatherDates 2 DEFAULT_VALUATION_DATE ⟨2025, 12, 1⟩ 366 ⟨2026, 10, 1⟩ []
      = some freq5Dates from by decide]
  simp only [freq5Dates]
  norm_num [freq5Amounts, List.replicate]

/-! ### C4: the schedule loop terminates only when the month step is
positive, i.e. for frequencies at most 12 -/

/-- C4 (amended).  `build_cashflows` terminates for every input whose
coupon frequency is missing, non-positive, or at most 12 (raising or
returning a schedule); this covers every frequency `f ≤ 12`.  For `f > 12`
the month step `12 // f` is 0 and the while-loop cannot terminate (see
the counterexample theorem). -/
theorem C4_termination_freq_le_12 (row : Row) (val : Date)
    (hmon : ∀ d, row.maturity = some d → 1 ≤ d.month ∧ d.month ≤ 12)
    (hf : ∀ f, row.couponFrequency = some f → f ≤ 12) :
    build_cashflows row val 100 ≠ Py.div := by
  rcases hc : row.couponFrequency with _ | freq
  · simp [build_cashflows, buildCashflowsFuel, hc]
  · by_cases h0 : freq = 0
    · simp [build_cashflows, buildCashflowsFuel, hc, h0]
    · rcases hm : row.maturity with _ | mat
      · simp [build_cashflows, buildCashflowsFuel, hc, h0, hm]
      · rcases hfc : row.firstCouponDate with _ | fc
        · simp [build_cashflows, buildCashflowsFuel, hc, h0, hm, hfc]
        · by_cases hneg : freq ≤ 0
          · simp [build_cashflows, buildCashflowsFuel, hc, h0, hm, hfc, hneg]
          · have h1 : 1 ≤ freq := by omega
            have h12 : freq ≤ 12 := hf freq hc
            have hmonths : 1 ≤ (12 / freq : ℤ) := by
              rw [Int.le_ediv_iff_mul_le (by omega : (0 : ℤ) < freq)]
              omega
            have hmat := hmon mat hm
            have hfuel : (mat.toDay - val.toDay).toNat < defaultFuel row val := by
              simp only [defaultFuel, hm]
              omega
            have hg := gatherDates_isSome (12 / freq) val fc hmonths
              (defaultFuel row val) mat [] hmat.1 hmat.2 hfuel
            obtain ⟨dates, hdates⟩ := Option.isSome_iff_exists.mp hg
            simp only [build_cashflows, buildCashflowsFuel, hc, h0, hm, hfc, hneg, hdates]
            cases dates <;> simp

/-- Witness for C4 at a frequency-12 bond. -/
theorem C4_termination_freq_le_12_check :
    build_cashflows rowFreq12 DEFAULT_VALUATION_DATE 100 ≠ Py.div := by
  apply C4_termination_freq_le_12
  · intro d hd
    simp only [rowFreq12, Option.some.injEq] at hd
    subst hd
    constructor <;> decide
  · intro f hf
    simp only [rowFreq12, Option.some.injEq] at hf
    omega

/-- C4 counterexample: for coupon frequency 13 (maturity after the
valuation date, first coupon before maturity) the month step is
`12 // 13 = 0`, the loop variable never changes, and no iteration budget
makes `build_cashflows` return: the Python loop runs forever. -/
theorem C4_divergence_freq13 :
    ¬ ∃ fuel : ℕ, buildCashflowsFuel rowFreq13 DEFAULT_VALUATION_DATE 100 fuel ≠ Py.div := by
  have hgather : ∀ (fuel : ℕ) (acc : List Date),
      gatherDates 0 DEFAULT_VALUATION_DATE ⟨2026, 10, 1⟩ fuel ⟨2030, 10, 1⟩ acc = none := by
    intro fuel
    induction fuel with
    | zero =>
      intro acc
      simp only [gatherDates]
      rw [if_pos (by decide)]
    | succ n ih =>
      intro acc
      simp only [gatherDates]
      rw [if_pos (by decide)]
      rw [show (⟨2030, 10, 1⟩ : Date).subMonths 0 = ⟨2030, 10, 1⟩ from by decide]
      exact ih _
  rintro ⟨fuel, hne⟩
  apply hne
  simp only [buildCashflowsFuel, rowFreq13]
  rw [if_neg (by decide : ¬(13 : ℤ) = 0)]
  simp only [if_neg (by decide : ¬(13 : ℤ) ≤ 0)]
  rw [show ((12 : ℤ) / 13) = 0 from by decide]
  rw [hgather]

/-! ### Helpers shared by the risk-record claims -/

theorem build_like (mp : Option ℚ) :
    build_cashflows ⟨some ⟨2030, 10, 1⟩, some ⟨2026, 10, 1⟩, some 1, 5, mp⟩
        DEFAULT_VALUATION_DATE 100
      = Py.ok (scenarioDates, scenarioAmounts) := by
  simp only [build_cashflows, buildCashflowsFuel, defaultFuel]
  norm_num
  rw [show ((⟨2030, 10, 1⟩ : Date).toDay - DEFAULT_VALUATION_DATE.toDay).toNat + 1 = 1827
    from by decide]
  rw [show gatherDates 12 DEFAULT_VALUATION_DATE ⟨2026, 10, 1⟩ 1827 ⟨2030, 10, 1⟩ []
      = some scenarioDates from by decide]
  simp only [scenarioDates]
  norm_num [scenarioAmounts, List.replicate]

theorem rf_raises_of_no_eligible (row : Row) (curva : List CurvePoint) (val : Date)
    (mat : Date) (hmat : row.maturity = some mat) (hT : 0 < year_fraction val mat)
    (helig : curva.filter (fun p => p.zeroRate.isSome) = []) :
    rf_zero_rate_at_maturity row curva val = Py.exn PyErr.emptyInterp := by
  simp only [rf_zero_rate_at_maturity, hmat, helig, List.map]
  rw [if_neg (not_le.mpr hT)]

theorem rf_ok_of_eligible (row : Row) (curva : List CurvePoint) (val : Date)
    (helig : curva.filter (fun p => p.zeroRate.isSome) ≠ []) :
    ∃ r, rf_zero_rate_at_maturity row curva val = Py.ok r := by
  obtain ⟨e, es, hees⟩ := List.exists_cons_of_ne_nil helig
  rcases hm : row.maturity with _ | mat
  · refine ⟨none, ?_⟩
    simp [rf_zero_rate_at_maturity, hm, hees]
  · by_cases hT : year_fraction val mat ≤ 0
    · refine ⟨none, ?_⟩
      simp [rf_zero_rate_at_maturity, hm, hees, hT]
    · refine ⟨some (interpPts (year_fraction val mat) (e.t, e.zeroRate.getD 0 / 100)
        (es.map fun p => (p.t, p.zeroRate.getD 0 / 100))), ?_⟩
      simp [rf_zero_rate_at_maturity, hm, hees, hT]

theorem brentq_none {f : ℝ → ℝ} {a b : ℝ}
    (h : ¬ ∃ x, x ∈ Set.Icc a b ∧ f x = 0) : brentq f a b = none := by
  simp only [brentq, dif_neg h]

theorem price_nonneg (cf_dates : List Date) :
    ∀ (cf_amounts : List ℚ) (val : Date) {y : ℝ}, 0 < 1 + y →
      (∀ a ∈ cf_amounts, 0 ≤ a) →
      0 ≤ price_given_yield y cf_dates cf_amounts val := by
  induction cf_dates with
  | nil => intro amounts val y _ _; simp [price_given_yield_nil]
  | cons d ds ih =>
    intro amounts val y hy hpos
    match amounts with
    | [] => simp [price_given_yield]
    | a :: as =>
      rw [price_given_yield_cons]
      have ha : (0 : ℝ) ≤ (a : ℝ) := by exact_mod_cast hpos a (by simp)
      have hterm : (0 : ℝ) ≤ (a : ℝ) * (1 / (1 + y) ^ ((year_fraction val d : ℚ) : ℝ)) := by
        have := Real.rpow_pos_of_pos hy ((year_fraction val d : ℚ) : ℝ)
        positivity
      have htail := ih as val hy (fun b hb => hpos b (by simp [hb]))
      linarith

theorem price_pos (cf_dates : List Date) :
    ∀ (cf_amounts : List ℚ) (val : Date) {y : ℝ}, 0 < 1 + y →
      cf_dates.length = cf_amounts.length → (∀ a ∈ cf_amounts, 0 ≤ a) →
      (∃ a ∈ cf_amounts, 0 < a) →
      0 < price_given_yield y cf_dates cf_amounts val := by
  induction cf_dates with
  | nil =>
    intro amounts val y _ hlen _ hsome
    match amounts with
    | [] => simp at hsome
    | a :: as => simp at hlen
  | cons d ds ih =>
    intro amounts val y hy hlen hpos hsome
    match amounts with
    | [] => simp at hlen
    | a :: as =>
      rw [price_given_yield_cons]
      have hrp := Real.rpow_pos_of_pos hy ((year_fraction val d : ℚ) : ℝ)
      have ha : (0 : ℝ) ≤ (a : ℝ) := by exact_mod_cast hpos a (by simp)
      rcases hsome with ⟨b, hb, hbpos⟩
      rcases List.mem_cons.mp hb with rfl | hbtail
      · have hterm : (0 : ℝ) < (b : ℝ) * (1 / (1 + y) ^ ((year_fraction val d : ℚ) : ℝ)) := by
          have hb0 : (0 : ℝ) < (b : ℝ) := by exact_mod_cast hbpos
          positivity
        have htail := price_nonneg ds as val hy (fun c hc => hpos c (by simp [hc]))
        linarith
      · have hterm : (0 : ℝ) ≤ (a : ℝ) * (1 / (1 + y) ^ ((year_fraction val d : ℚ) : ℝ)) := by
          positivity
        have htail := ih as val hy (by simpa using hlen)
          (fun c hc => hpos c (by simp [hc])) ⟨b, hbtail, hbpos⟩
        linarith

theorem build_cases (row : Row) (val : Date) (f : ℤ)
    (hfreq : row.couponFrequency = some f) (h1 : 1 ≤ f) (h12 : f ≤ 12)
    (hmon : ∀ d, row.maturity = some d → 1 ≤ d.month ∧ d.month ≤ 12) :
    build_cashflows row val 100 = Py.ok ([], [])
    ∨ ∃ dates : List Date, dates ≠ [] ∧ build_cashflows row val 100 = Py.ok (dates,
        List.replicate (dates.length - 1) (100 * (row.coupon / 100) / (f : ℚ))
          ++ [100 * (row.coupon / 100) / (f : ℚ) + 100]) := by
  have h0 : ¬ f = 0 := by omega
  have hneg : ¬ f ≤ 0 := by omega
  rcases hm : row.maturity with _ | mat
  · left
    simp [build_cashflows, buildCashflowsFuel, hfreq, h0, hm]
  · rcases hfc : row.firstCouponDate with _ | fc
    · left
      simp [build_cashflows, buildCashflowsFuel, hfreq, h0, hm, hfc]
    · have hmonths : 1 ≤ (12 / f : ℤ) := by
        rw [Int.le_ediv_iff_mul_le (by omega : (0 : ℤ) < f)]
        omega
      have hmat := hmon mat hm
      have hfuel : (mat.toDay - val.toDay).toNat < defaultFuel row val := by
        simp only [defaultFuel, hm]
        omega
      have hg := gatherDates_isSome (12 / f) val fc hmonths
        (defaultFuel row val) mat [] hmat.1 hmat.2 hfuel
      obtain ⟨dates, hdates⟩ := Option.isSome_iff_exists.mp hg
      match dates, hdates with
      | [], hdates =>
        left
        simp [build_cashflows, buildCashflowsFuel, hfreq, h0, hm, hfc, hneg, hdates]
      | d :: ds, hdates =>
        right
        refine ⟨d :: ds, by simp, ?_⟩
        simp [build_cashflows, buildCashflowsFuel, hfreq, h0, hm, hfc, hneg, hdates]

/-! ### C6: per-field missingness of the risk record -/

/-- C6 (amended).  Whenever `compute_full_risk_measures` returns a record
at all: the spread is missing iff the YTM or the risk-free rate is
missing; each of the three duration/convexity fields is missing iff the
YTM is missing; an empty schedule yields the all-missing record; and for a
non-empty schedule the YTM field equals the yield solve of the schedule
alone — an expression not involving the curve, so a missing risk-free rate
cannot blank it.  The original claim fails because a curve with no
eligible zero-rate pivot makes the whole computation raise instead of
producing a record (see the counterexample). -/
theorem C6_field_missingness (row : Row) (curva : List CurvePoint) (val : Date)
    (rec : RiskRecord) (hok : compute_full_risk_measures row curva val = Py.ok rec) :
    (rec.spread = none ↔ (rec.YTM = none ∨ rec.rf_rate = none))
    ∧ (rec.Dur_Mac = none ↔ rec.YTM = none)
    ∧ (rec.Dur_Mod = none ↔ rec.YTM = none)
    ∧ (rec.Convexity = none ↔ rec.YTM = none)
    ∧ (∀ cf_dates cf_amounts,
        build_cashflows row val 100 = Py.ok (cf_dates, cf_amounts) →
        (cf_dates = [] → rec = RiskRecord.allMissing)
        ∧ (cf_dates ≠ [] →
            rec.YTM = yield_to_maturity row.marketPrice cf_dates cf_amounts val)) := by
  cases hb : build_cashflows row val 100 with
  | exn e =>
    simp only [compute_full_risk_measures, hb, Py.bind] at hok
    exact Py.noConfusion hok
  | div =>
    simp only [compute_full_risk_measures, hb, Py.bind] at hok
    exact Py.noConfusion hok
  | ok s =>
    obtain ⟨cf_dates, cf_amounts⟩ := s
    by_cases hempty : cf_dates = []
    · simp only [compute_full_risk_measures, hb, Py.bind, if_pos hempty] at hok
      have hrec : rec = RiskRecord.allMissing := by
        cases hok
        rfl
      subst hrec
      refine ⟨by simp [RiskRecord.allMissing], by simp [RiskRecord.allMissing],
        by simp [RiskRecord.allMissing], by simp [RiskRecord.allMissing], ?_⟩
      intro dd aa hdd
      cases hdd
      refine ⟨fun _ => rfl, fun hne => absurd hempty hne⟩
    · simp only [compute_full_risk_measures, hb, Py.bind, if_neg hempty] at hok
      cases hrf : rf_zero_rate_at_maturity row curva val with
      | exn e =>
        rw [hrf] at hok
        simp only [Py.bind] at hok
        exact Py.noConfusion hok
      | div =>
        rw [hrf] at hok
        simp only [Py.bind] at hok
        exact Py.noConfusion hok
      | ok rfv =>
        rw [hrf] at hok
        simp only [Py.bind] at hok
        obtain rfl := Py.ok.inj hok
        refine ⟨?_, ?_, ?_, ?_, ?_⟩
        · cases hytm : yield_to_maturity row.marketPrice cf_dates cf_amounts val <;>
            cases rfv <;> simp
        · cases hytm : yield_to_maturity row.marketPrice cf_dates cf_amounts val <;> simp
        · cases hytm : yield_to_maturity row.marketPrice cf_dates cf_amounts val <;> simp
        · cases hytm : yield_to_maturity row.marketPrice cf_dates cf_amounts val <;> simp
        · intro dd aa hdd
          cases hdd
          exact ⟨fun h => absurd h hempty, fun _ => rfl⟩

theorem compute_rowNoPrice :
    compute_full_risk_measures rowNoPrice curveWithZero DEFAULT_VALUATION_DATE
      = Py.ok recNoPrice := by
  have hb : build_cashflows rowNoPrice DEFAULT_VALUATION_DATE 100
      = Py.ok (scenarioDates, scenarioAmounts) := build_like none
  have hrf : rf_zero_rate_at_maturity rowNoPrice curveWithZero DEFAULT_VALUATION_DATE
      = Py.ok (some (3 / 100)) := by
    simp only [rf_zero_rate_at_maturity, rowNoPrice, curveWithZero, List.filter, List.map]
    rw [yf_2030]
    rw [if_neg (by norm_num)]
    norm_num [interpPts]
  simp only [compute_full_risk_measures, hb, Py.bind]
  rw [if_neg (by decide : ¬(scenarioDates = []))]
  rw [hrf]
  simp only [Py.bind]
  simp only [yield_to_maturity, rowNoPrice]
  rw [if_neg (by decide : ¬(scenarioDates = []))]
  simp [recNoPrice]

/-- Witness for C6: a priced schedule with the market price missing — the
record exists, its YTM is exactly the (failed) yield solve, independent of
the curve, and the iffs hold. -/
theorem C6_field_missingness_check :
    (recNoPrice.spread = none ↔ (recNoPrice.YTM = none ∨ recNoPrice.rf_rate = none))
    ∧ (recNoPrice.Dur_Mac = none ↔ recNoPrice.YTM = none)
    ∧ (recNoPrice.Dur_Mod = none ↔ recNoPrice.YTM = none)
    ∧ (recNoPrice.Convexity = none ↔ recNoPrice.YTM = none)
    ∧ (∀ cf_dates cf_amounts,
        build_cashflows rowNoPrice DEFAULT_VALUATION_DATE 100 = Py.ok (cf_dates, cf_amounts) →
        (cf_dates = [] → recNoPrice = RiskRecord.allMissing)
        ∧ (cf_dates ≠ [] → recNoPrice.YTM = yield_to_maturity rowNoPrice.marketPrice
            cf_dates cf_amounts DEFAULT_VALUATION_DATE)) :=
  C6_field_missingness rowNoPrice curveWithZero DEFAULT_VALUATION_DATE recNoPrice
    compute_rowNoPrice

/-- C6 counterexample: for a bond with a non-empty schedule and a curve
with no eligible zero-rate pivot, `compute_full_risk_measures` raises (the
`np.interp` `ValueError` of the risk-free lookup) and produces no record
at all, so no field-wise missingness can hold — in particular a missing
risk-free rate does NOT leave a solved YTM present. -/
theorem C6_rf_crash_destroys_record :
    compute_full_risk_measures rowPriced curveNoZero DEFAULT_VALUATION_DATE
      = Py.exn PyErr.emptyInterp
    ∧ ¬ ∃ rec : RiskRecord, compute_full_risk_measures rowPriced curveNoZero
        DEFAULT_VALUATION_DATE = Py.ok rec := by
  have hb : build_cashflows rowPriced DEFAULT_VALUATION_DATE 100
      = Py.ok (scenarioDates, scenarioAmounts) := build_like (some 100)
  have hrf : rf_zero_rate_at_maturity rowPriced curveNoZero DEFAULT_VALUATION_DATE
      = Py.exn PyErr.emptyInterp :=
    rf_raises_of_no_eligible rowPriced curveNoZero DEFAULT_VALUATION_DATE ⟨2030, 10, 1⟩
      rfl (by rw [yf_2030]; norm_num) rfl
  have hcrash : compute_full_risk_measures rowPriced curveNoZero DEFAULT_VALUATION_DATE
      = Py.exn PyErr.emptyInterp := by
    simp only [compute_full_risk_measures, hb, Py.bind]
    rw [if_neg (by decide : ¬(scenarioDates = []))]
    rw [hrf]
  refine ⟨hcrash, ?_⟩
  rw [hcrash]
  rintro ⟨rec, hrec⟩
  exact Py.noConfusion hrec

/-! ### C7: zero-rate lookup with no eligible pivots raises -/

/-- C7 (amended).  For every curve in which no pivot has a defined zero
rate and every bond whose maturity lies strictly after the valuation date,
`rf_zero_rate_at_maturity` raises the `np.interp` `ValueError` on the
empty sample array — it does not return the missing value. -/
theorem C7_no_eligible_pivots_raise (row : Row) (curva : List CurvePoint) (val : Date)
    (mat : Date) (hmat : row.maturity = some mat) (hT : 0 < year_fraction val mat)
    (helig : curva.filter (fun p => p.zeroRate.isSome) = []) :
    rf_zero_rate_at_maturity row curva val = Py.exn PyErr.emptyInterp :=
  rf_raises_of_no_eligible row curva val mat hmat hT helig

/-- Witness for C7 at a concrete bond and zero-rate-free curve. -/
theorem C7_no_eligible_pivots_raise_check :
    rf_zero_rate_at_maturity rowNoPrice curveNoZero DEFAULT_VALUATION_DATE
      = Py.exn PyErr.emptyInterp :=
  C7_no_eligible_pivots_raise rowNoPrice curveNoZero DEFAULT_VALUATION_DATE ⟨2030, 10, 1⟩
    rfl (by rw [yf_2030]; norm_num) rfl

/-- C7 counterexample: at a concrete curve with no eligible pivots and a
bond with positive year-fraction to maturity, the lookup raises and in
particular does not return the missing value. -/
theorem C7_missing_value_claim_false :
    rf_zero_rate_at_maturity rowPriced curveNoZero DEFAULT_VALUATION_DATE
      = Py.exn PyErr.emptyInterp
    ∧ rf_zero_rate_at_maturity rowPriced curveNoZero DEFAULT_VALUATION_DATE
      ≠ Py.ok none := by
  have h := rf_raises_of_no_eligible rowPriced curveNoZero DEFAULT_VALUATION_DATE
    ⟨2030, 10, 1⟩ rfl (by rw [yf_2030]; norm_num) rfl
  refine ⟨h, ?_⟩
  rw [h]
  exact fun hc => Py.noConfusion hc

/-! ### C8: a non-positive market price and the duration calculation -/

/-- C8 counterexample: `duration_and_convexity` itself has no
missing-value guard: called directly with market price −1 (a one-cashflow
schedule, yield 0) it silently returns the definite finite values
`(-100, -100, -200)` — not a missing result. -/
theorem C8_duration_defined_at_negative_price :
    duration_and_convexity (-1) durCexDates durCexAmounts 0 DEFAULT_VALUATION_DATE
      = (-100, -100, -200) := by
  simp only [duration_and_convexity, durCexDates, durCexAmounts, List.zipWith, List.map,
    List.sum_cons, List.sum_nil]
  rw [yf_2026]
  norm_num [Real.one_rpow]

/-- C8 (amended).  Inside `compute_full_risk_measures` a non-positive
market price never reaches the division: with non-negative coupons every
flat-yield price is strictly positive on the bracket, the yield solve
fails, and the YTM, duration and convexity fields all come back missing.
(`duration_and_convexity` itself, called directly with a non-positive
price, returns definite numbers — see the counterexample.) -/
theorem C8_nonpositive_price_missing_fields (row : Row) (curva : List CurvePoint)
    (val : Date) (f : ℤ) (p : ℚ) (hfreq : row.couponFrequency = some f)
    (h1 : 1 ≤ f) (h12 : f ≤ 12)
    (hmon : ∀ d, row.maturity = some d → 1 ≤ d.month ∧ d.month ≤ 12)
    (hp : row.marketPrice = some p) (hp0 : p ≤ 0) (hcoup : 0 ≤ row.coupon)
    (helig : curva.filter (fun q => q.zeroRate.isSome) ≠ []) :
    ∃ r : Option ℝ, compute_full_risk_measures row curva val
      = Py.ok ⟨none, r, none, none, none, none⟩ := by
  rcases build_cases row val f hfreq h1 h12 hmon with hb | ⟨dates, hne, hb⟩
  · refine ⟨none, ?_⟩
    simp only [compute_full_risk_measures, hb, Py.bind]
    simp [RiskRecord.allMissing]
  · obtain ⟨r0, hrf⟩ := rf_ok_of_eligible row curva val helig
    have hcpp : (0 : ℚ) ≤ 100 * (row.coupon / 100) / (f : ℚ) := by
      have hf0 : (0 : ℚ) < (f : ℚ) := by exact_mod_cast h1
      positivity
    have hytm : yield_to_maturity row.marketPrice dates
        (List.replicate (dates.length - 1) (100 * (row.coupon / 100) / (f : ℚ))
          ++ [100 * (row.coupon / 100) / (f : ℚ) + 100]) val = none := by
      rw [hp]
      simp only [yield_to_maturity, if_neg hne]
      apply brentq_none
      rintro ⟨x, hx, hfx⟩
      have hxlo : (-0.05 : ℝ) ≤ x := hx.1
      have hy : (0 : ℝ) < 1 + x := by norm_num at hxlo ⊢; linarith
      have hlen : dates.length =
          (List.replicate (dates.length - 1) (100 * (row.coupon / 100) / (f : ℚ))
            ++ [100 * (row.coupon / 100) / (f : ℚ) + 100]).length := by
        have hpos : 0 < dates.length := List.length_pos.mpr hne
        simp [List.length_replicate]
        omega
      have hmem : ∀ a ∈ List.replicate (dates.length - 1)
          (100 * (row.coupon / 100) / (f : ℚ))
            ++ [100 * (row.coupon / 100) / (f : ℚ) + 100], 0 ≤ a := by
        intro a ha
        rcases List.mem_append.mp ha with hrep | hlast
        · rw [List.eq_of_mem_replicate hrep]
          exact hcpp
        · rw [List.mem_singleton.mp hlast]
          linarith
      have hsome : ∃ a ∈ List.replicate (dates.length - 1)
          (100 * (row.coupon / 100) / (f : ℚ))
            ++ [100 * (row.coupon / 100) / (f : ℚ) + 100], 0 < a := by
        refine ⟨100 * (row.coupon / 100) / (f : ℚ) + 100, ?_, by linarith⟩
        exact List.mem_append.mpr (Or.inr (List.mem_singleton.mpr rfl))
      have hppos := price_pos dates _ val hy hlen hmem hsome
      have hpr : price_given_yield x dates
          (List.replicate (dates.length - 1) (100 * (row.coupon / 100) / (f : ℚ))
            ++ [100 * (row.coupon / 100) / (f : ℚ) + 100]) val = (p : ℝ) := by
        have := sub_eq_zero.mp hfx
        linarith [this]
      have hple : (p : ℝ) ≤ 0 := by exact_mod_cast hp0
      linarith
    refine ⟨r0.map (fun r => (r : ℝ)), ?_⟩
    simp only [compute_full_risk_measures, hb, Py.bind]
    rw [if_neg hne, hrf]
    simp only [Py.bind, hytm]
    cases r0 <;> rfl

/-- Witness for C8 at a concrete bond quoted at −5. -/
theorem C8_nonpositive_price_missing_fields_check :
    ∃ r : Option ℝ, compute_full_risk_measures rowNegPrice curveWithZero
      DEFAULT_VALUATION_DATE = Py.ok ⟨none, r, none, none, none, none⟩ :=
  C8_nonpositive_price_missing_fields rowNegPrice curveWithZero DEFAULT_VALUATION_DATE
    1 (-5) rfl (by norm_num) (by norm_num)
    (by
      intro d hd
      simp only [rowNegPrice, Option.some.injEq] at hd
      subst hd
      exact ⟨by norm_num, by norm_num⟩)
    rfl (by norm_num) (by norm_num [rowNegPrice]) (by decide)

end RentaFija
